import Mathlib

/-!
# Job control of the simple shell interpreter (`ssi.c`)

A shallow embedding of the background-process registry of `ssi.c`
(`add_bg_process`, `bg_process_status`), of the tokenisation of the input line
and of one iteration of the command loop of `main`, followed by theorems about
them.

Conventions of the embedding.

* The heap block `bg_processes` is a `List background_process` (one element per
  allocated slot, `[]` for `NULL`); `num_bg_processes` is the C `int` counter,
  kept apart from the block as in the source.  Reads and writes outside the
  block, and `num_bg_processes++` at `INT_MAX`, give `Outcome.undefined`.
* C strings are `List Char` (the characters before the terminating NUL).
* Everything the program asks of the operating system goes through a record
  `OS σ` of oracles over an arbitrary world type `σ`; theorems quantify over
  the record, hence over every possible answer of the system.
* Every system call and every `printf`/`fprintf`/`perror` is appended to
  `Shell.trace`, one `Event` constructor per call site.
* `for`/`while` loops are recursive functions with a fuel argument; running out
  of fuel is the distinct outcome `Outcome.out_of_fuel`, and the theorems show
  that the fuel given by the callers is never exhausted.
-/

namespace SSI

/-! ## Data model -/

/-- The C `struct background_process`: `pid` and the label `command`
(`char command[1024]`, read as a C string). -/
structure background_process where
  pid : Int
  command : List Char
deriving DecidableEq, Repr

/-- One entry of the trace: a system call with its result, or a call of a
printing function with its arguments. -/
inductive Event where
  /-- The call `printf("%s@%s: %s > ", username, hostname, cwd)` (line 46) -/
  | printf_prompt (username hostname cwd : List Char)
  /-- The call `printf("%d: %s has terminated.\n", pid, command)` (line 74) -/
  | printf_terminated (pid : Int) (command : List Char)
  /-- The call `printf("%d: %s\n", pid, command)` (line 187) -/
  | printf_entry (pid : Int) (command : List Char)
  /-- The call `printf("Total background jobs: %d\n", n)` (line 189) -/
  | printf_total (n : Int)
  /-- The call `fprintf(stderr, msg)` -/
  | fprintf_stderr (msg : String)
  /-- The call `perror(tag)` -/
  | perror (tag : String)
  /-- The `fork()` of the `bg` branch (line 164) and its return value -/
  | fork_bg (ret : Int)
  /-- The `fork()` of the foreground branch (line 193) and its return value -/
  | fork_fg (ret : Int)
  /-- The call `wait(NULL)` (line 205) and its return value -/
  | wait (ret : Int)
  /-- The call `waitpid(pid, NULL, WNOHANG)` (line 71) and its return value -/
  | waitpid (pid ret : Int)
  /-- The call `chdir(path)` and its return value -/
  | chdir (path : List Char) (ret : Int)
  /-- The call `realloc(bg_processes, count * sizeof(struct background_process))` (line 52)
  and whether it returned a non-null pointer -/
  | realloc (count : Int) (ok : Bool)
deriving DecidableEq, Repr

/-- The operating system as seen by the shell: each field answers one call from
the current world and gives the next world. -/
structure OS (σ : Type) where
  /-- Answer to `waitpid(pid, NULL, WNOHANG)` -/
  waitpid : σ → Int → Int × σ
  /-- Answer to `wait(NULL)` -/
  wait : σ → Int × σ
  /-- Answer to `fork()`, as it returns in the calling process (`0`: this is the child) -/
  fork : σ → Int × σ
  /-- Answer to `realloc` to `count` elements: does it succeed? -/
  realloc : σ → Int → Bool × σ
  /-- Answer to `chdir(path)` -/
  chdir : σ → List Char → Int × σ
  /-- Answer to `getenv("HOME")` -/
  getenv_HOME : σ → Option (List Char)
  /-- Answers of `getlogin_r`, `gethostname`, `getcwd` for the prompt -/
  whoami : σ → List Char × List Char × List Char

/-- The globals of `ssi.c` (`bg_processes`, `num_bg_processes`) together with the
world and the trace. -/
structure Shell (σ : Type) where
  bg_processes : List background_process
  num_bg_processes : Int
  os : σ
  trace : List Event
deriving DecidableEq, Repr

/-- How a piece of code ends. -/
inductive Outcome (α : Type) where
  /-- control reaches the end of the code -/
  | ok (a : α)
  /-- the `break` of the `exit` built-in (line 108) -/
  | exit_loop (a : α)
  /-- The `fork()` returned `0`: this process is the child and goes to `execvp` -/
  | in_child (a : α)
  /-- The `exit(EXIT_FAILURE)` after a failed `realloc` (line 63) -/
  | exit_failure (a : α)
  /-- access outside an array, read of an unterminated string, `int` overflow -/
  | undefined
  /-- the fuel of a loop ran out -/
  | out_of_fuel
deriving DecidableEq, Repr

/-- The value of `INT_MAX` for a 32-bit `int`. -/
def INT_MAX : Int := 2147483647

/-- The size `sizeof(bg_processes[0].command)`, the `1024` of line 32. -/
def COMMAND_SIZE : Nat := 1024

/-- Read `a[i]`; `none` outside the array. -/
def rd {α : Type} (a : List α) (i : Int) : Option α :=
  if 0 ≤ i then a[i.toNat]? else none

/-- Write `a[i] = v`; `none` outside the array. -/
def wr {α : Type} (a : List α) (i : Int) (v : α) : Option (List α) :=
  if 0 ≤ i ∧ i < a.length then some (a.set i.toNat v) else none

/-- The registry proper: the first `num_bg_processes` slots of the block. -/
def registry {σ : Type} (s : Shell σ) : List background_process :=
  s.bg_processes.take s.num_bg_processes.toNat

/-- The counter is non-negative and within the allocated block. -/
def wf {σ : Type} (s : Shell σ) : Prop :=
  0 ≤ s.num_bg_processes ∧ s.num_bg_processes ≤ s.bg_processes.length

instance {σ : Type} (s : Shell σ) : Decidable (wf s) := by
  unfold wf; infer_instance

/-- Append events to the trace. -/
def Shell.log {σ : Type} (s : Shell σ) (es : List Event) : Shell σ :=
  { s with trace := s.trace ++ es }

/-! ## `add_bg_process` (lines 50-65) -/

/-- The block after a successful `realloc` to `count` elements: the old
contents up to the new size; a slot beyond the old block is fresh (it is
overwritten by the caller before any read). -/
def realloc_block (old : List background_process) (count : Nat) :
    List background_process :=
  old.take count ++ List.replicate (count - old.length) ⟨0, []⟩

/-- The label stored by `strncpy(dst, command, 1024); dst[1023] = 0`. -/
def strncpy_label (command : List Char) : List Char :=
  command.take (COMMAND_SIZE - 1)

/-- The function `add_bg_process(pid, command)`. -/
def add_bg_process {σ : Type} (os : OS σ) (s : Shell σ) (pid : Int)
    (command : List Char) : Outcome (Shell σ) :=
  if s.num_bg_processes ≥ INT_MAX then .undefined else
  let n := s.num_bg_processes + 1
  let r := os.realloc s.os n
  let s1 : Shell σ :=
    { s with num_bg_processes := n, os := r.2,
             trace := s.trace ++ [Event.realloc n r.1] }
  if r.1 then
    let blk := realloc_block s.bg_processes n.toNat
    match wr blk (n - 1) ⟨pid, strncpy_label command⟩ with
    | none => .undefined
    | some blk1 => .ok { s1 with bg_processes := blk1 }
  else
    .exit_failure
      ({ s1 with bg_processes := [] }.log
        [Event.fprintf_stderr "Error allocating memory for background processes\n"])

/-! ## `bg_process_status` (lines 68-83) -/

/-- The inner loop `for (int j = i; j < num_bg_processes - 1; j++)
bg_processes[j] = bg_processes[j + 1];` from the value `j`. -/
def shift_loop (num : Int) : Nat → Int → List background_process →
    Outcome (List background_process)
  | 0, _, _ => .out_of_fuel
  | fuel + 1, j, a =>
    if j < num - 1 then
      match rd a (j + 1) with
      | none => .undefined
      | some e =>
        match wr a j e with
        | none => .undefined
        | some a1 => shift_loop num fuel (j + 1) a1
    else .ok a

/-- The loop `for (i = 0; i < num_bg_processes; i++)` of `bg_process_status`,
from the value `i`. -/
def bg_process_status_loop {σ : Type} (os : OS σ) : Nat → Int → Shell σ →
    Outcome (Shell σ)
  | 0, _, _ => .out_of_fuel
  | fuel + 1, i, s =>
    if i < s.num_bg_processes then
      match rd s.bg_processes i with
      | none => .undefined
      | some e =>
        let r := os.waitpid s.os e.pid
        let s1 : Shell σ := { s with os := r.2, trace := s.trace ++ [Event.waitpid e.pid r.1] }
        if r.1 > 0 then
          let s2 := s1.log [Event.printf_terminated e.pid e.command]
          match shift_loop s2.num_bg_processes (s2.num_bg_processes - i).toNat i
              s2.bg_processes with
          | .ok a =>
            bg_process_status_loop os fuel (i - 1 + 1)
              { s2 with bg_processes := a, num_bg_processes := s2.num_bg_processes - 1 }
          | .out_of_fuel => .out_of_fuel
          | _ => .undefined
        else
          bg_process_status_loop os fuel (i + 1) s1
    else .ok s

/-- The function `bg_process_status()`. -/
def bg_process_status {σ : Type} (os : OS σ) (s : Shell σ) : Outcome (Shell σ) :=
  bg_process_status_loop os (s.num_bg_processes.toNat + 1) 0 s

/-! ## The reaping step in the words of the specification -/

/-- The operation `remove_terminated` of the specification: go through the entries in order,
check each one once, keep the entries whose check did not report termination
(result `> 0`), report the others.  Gives the entries kept, the events of the
scan and the world after it. -/
def remove_terminated {σ : Type} (os : OS σ) :
    σ → List background_process → List background_process × List Event × σ
  | w, [] => ([], [], w)
  | w, e :: es =>
    let r := os.waitpid w e.pid
    let t := remove_terminated os r.2 es
    if r.1 > 0 then
      (t.1, Event.waitpid e.pid r.1 :: Event.printf_terminated e.pid e.command :: t.2.1, t.2.2)
    else
      (e :: t.1, Event.waitpid e.pid r.1 :: t.2.1, t.2.2)

/-- The result of the liveness check of each entry, in scan order, each check
made in the world left by the checks before it. -/
def check_outcomes {σ : Type} (os : OS σ) : σ → List background_process → List Int
  | _, [] => []
  | w, e :: es => (os.waitpid w e.pid).1 :: check_outcomes os (os.waitpid w e.pid).2 es

/-- The calls `waitpid(pid, NULL, WNOHANG)` of a trace, as `(pid, result)`. -/
def waitpid_calls (t : List Event) : List (Int × Int) :=
  t.filterMap fun ev => match ev with
    | .waitpid p r => some (p, r)
    | _ => none

/-- The text a printing event writes to standard output (`none` for system
calls and for what goes to standard error). -/
def stdout_text : Event → Option String
  | .printf_prompt u h c =>
    some (String.mk u ++ "@" ++ String.mk h ++ ": " ++ String.mk c ++ " > ")
  | .printf_terminated p c => some (toString p ++ ": " ++ String.mk c ++ " has terminated.\n")
  | .printf_entry p c => some (toString p ++ ": " ++ String.mk c ++ "\n")
  | .printf_total n => some ("Total background jobs: " ++ toString n ++ "\n")
  | _ => none

/-- What a trace writes to standard output, one string per `printf`. -/
def stdout_of (t : List Event) : List String := t.filterMap stdout_text

/-- The termination line of an entry. -/
def terminated_line (e : background_process) : String :=
  toString e.pid ++ ": " ++ String.mk e.command ++ " has terminated.\n"

/-! ## Reading and splitting the input line (lines 88-103) -/

/-- The terminator of C strings. -/
def NUL : Char := Char.ofNat 0

/-- The newline character. -/
def NL : Char := Char.ofNat 10

/-- The space character. -/
def SP : Char := Char.ofNat 32

/-- The size of `char input[1024]` (line 88). -/
def INPUT_SIZE : Nat := 1024

/-- The number of slots of `char *args[100]` (line 96). -/
def ARGS_SIZE : Nat := 100

/-- What one iteration of the command loop gets from outside: the contents of
the array `input` when the iteration starts (left over from an earlier
iteration, or never initialised), and what `fgets` reads from standard input,
`none` when it reports end of input (returns `NULL`). -/
structure Input where
  stale : List Char
  line : Option (List Char)
deriving DecidableEq, Repr

/-- The array `input` after `fgets(input, sizeof(input), stdin)`; the return
value of `fgets` is not looked at by the caller.  At end of input the array is
left as it was; otherwise at most `sizeof(input) - 1` characters are stored,
followed by NUL. -/
def fgets (stale : List Char) (line : Option (List Char)) : List Char :=
  match line with
  | none => stale
  | some l => l.take (INPUT_SIZE - 1) ++ NUL :: stale.drop ((l.take (INPUT_SIZE - 1)).length + 1)

/-- The C string held by an array; `none` when the array has no NUL. -/
def cstr (buf : List Char) : Option (List Char) :=
  if NUL ∈ buf then some (buf.takeWhile (fun c => c ≠ NUL)) else none

/-- The delimiters `" \n"` passed to `strtok`. -/
def is_delim (c : Char) : Bool := c == SP || c == NL

/-- One call of `strtok` on what is left of the string: skip the delimiters;
`NULL` (`none`) when nothing follows; otherwise the token, and what follows the
delimiter that ended it. -/
def strtok (s : List Char) : Option (List Char × List Char) :=
  match s.dropWhile is_delim with
  | [] => none
  | c :: cs =>
    some ((c :: cs).takeWhile (fun x => !is_delim x),
          ((c :: cs).dropWhile (fun x => !is_delim x)).drop 1)

/-- The loop `while (token != NULL) { args[i++] = token; token = strtok(NULL, " \n"); }`
followed by `args[i] = NULL;`.  The list `args` holds `args[0..i-1]`, so `i` is
its length; a write at an index `≥ 100` is outside `args`. -/
def args_loop : Nat → Option (List Char × List Char) → List (List Char) →
    Outcome (List (List Char))
  | 0, _, _ => .out_of_fuel
  | fuel + 1, token, args =>
    match token with
    | some (tok, rest) =>
      if args.length < ARGS_SIZE then args_loop fuel (strtok rest) (args ++ [tok])
      else .undefined
    | none => if args.length < ARGS_SIZE then .ok args else .undefined

/-- Lines 97-103 on the C string `s`. -/
def tokenize (s : List Char) : Outcome (List (List Char)) :=
  args_loop (s.length + 1) (strtok s) []

/-- Lines 91-103: `fgets`, cut at the first newline, split into `args`. -/
def read_args (inp : Input) : Outcome (List (List Char)) :=
  match cstr (fgets inp.stale inp.line) with
  | none => .undefined
  | some str => tokenize (str.takeWhile (fun c => c ≠ NL))

/-! ## The command loop of `main` (lines 87-211) -/

/-- The function `display_prompt()`. -/
def display_prompt {σ : Type} (os : OS σ) (s : Shell σ) : Shell σ :=
  s.log [Event.printf_prompt (os.whoami s.os).1 (os.whoami s.os).2.1 (os.whoami s.os).2.2]

/-- The statement `if (chdir(path) != 0) perror("cd");`. -/
def chdir_or_perror {σ : Type} (os : OS σ) (s : Shell σ) (path : List Char) : Shell σ :=
  let r := os.chdir s.os path
  let s1 : Shell σ := { s with os := r.2, trace := s.trace ++ [Event.chdir path r.1] }
  if r.1 ≠ 0 then s1.log [Event.perror "cd"] else s1

/-- The message of `cd` when `getenv("HOME")` is `NULL`. -/
def no_home {σ : Type} (s : Shell σ) : Shell σ :=
  s.log [Event.fprintf_stderr "cd: HOME environment variable not set\n"]

/-- The `cd` branch (lines 110-160). -/
def cd_branch {σ : Type} (os : OS σ) (s : Shell σ) (args : List (List Char)) : Shell σ :=
  match args with
  | _ :: a1 :: _ =>
    if a1 = "~".toList then
      match os.getenv_HOME s.os with
      | some home => chdir_or_perror os s home
      | none => no_home s
    else if a1.take 2 = "~/".toList then
      match os.getenv_HOME s.os with
      | some home => chdir_or_perror os s ((home ++ a1.drop 1).take 1023)
      | none => no_home s
    else chdir_or_perror os s a1
  | _ =>
    match os.getenv_HOME s.os with
    | some home => chdir_or_perror os s home
    | none => no_home s

/-- The `bg` branch (lines 161-182). -/
def bg_branch {σ : Type} (os : OS σ) (s : Shell σ) (args : List (List Char)) :
    Outcome (Shell σ) :=
  match args with
  | _ :: a1 :: _ =>
    let r := os.fork s.os
    let s1 : Shell σ := { s with os := r.2, trace := s.trace ++ [Event.fork_bg r.1] }
    if r.1 = 0 then .in_child s1
    else if r.1 < 0 then .ok (s1.log [Event.perror "fork"])
    else add_bg_process os s1 r.1 a1
  | _ => .ok (s.log [Event.fprintf_stderr "bg: No command given\n"])

/-- The loop `for (int i = 0; i < num_bg_processes; i++) printf(...)` of the
`bglist` branch, from the value `i`. -/
def bglist_loop {σ : Type} : Nat → Int → Shell σ → Outcome (Shell σ)
  | 0, _, _ => .out_of_fuel
  | fuel + 1, i, s =>
    if i < s.num_bg_processes then
      match rd s.bg_processes i with
      | none => .undefined
      | some e => bglist_loop fuel (i + 1) (s.log [Event.printf_entry e.pid e.command])
    else .ok s

/-- The `bglist` branch (lines 184-190). -/
def bglist_branch {σ : Type} (s : Shell σ) : Outcome (Shell σ) :=
  match bglist_loop (s.num_bg_processes.toNat + 1) 0 s with
  | .ok s1 => .ok (s1.log [Event.printf_total s1.num_bg_processes])
  | o => o

/-- The foreground branch (lines 191-207). -/
def fg_branch {σ : Type} (os : OS σ) (s : Shell σ) : Outcome (Shell σ) :=
  let r := os.fork s.os
  let s1 : Shell σ := { s with os := r.2, trace := s.trace ++ [Event.fork_fg r.1] }
  if r.1 = 0 then .in_child s1
  else if r.1 < 0 then .ok (s1.log [Event.perror "fork"])
  else
    let w := os.wait s1.os
    .ok { s1 with os := w.2, trace := s1.trace ++ [Event.wait w.1] }

/-- The dispatch on `args[0]` (lines 106-208); `args` has `i` elements. -/
def dispatch {σ : Type} (os : OS σ) (s : Shell σ) (args : List (List Char)) :
    Outcome (Shell σ) :=
  match args with
  | [] => .ok s
  | a0 :: _ =>
    if a0 = "exit".toList then .exit_loop s
    else if a0 = "cd".toList then .ok (cd_branch os s args)
    else if a0 = "bg".toList then bg_branch os s args
    else if a0 = "bglist".toList then bglist_branch s
    else fg_branch os s

/-- One iteration of `while (1)` (lines 88-209). -/
def main_iteration {σ : Type} (os : OS σ) (s : Shell σ) (inp : Input) : Outcome (Shell σ) :=
  match read_args inp with
  | .ok args =>
    match dispatch os (display_prompt os s) args with
    | .ok s1 => bg_process_status os s1
    | o => o
  | .out_of_fuel => .out_of_fuel
  | _ => .undefined

/-- The command loop over the successive inputs; `Outcome.ok` when the inputs
are used up and the loop is still running. -/
def main_loop {σ : Type} (os : OS σ) : List Input → Shell σ → Outcome (Shell σ)
  | [], s => .ok s
  | inp :: rest, s =>
    match main_iteration os s inp with
    | .ok s1 => main_loop os rest s1
    | o => o

/-- The shell when `main` starts: `bg_processes = NULL`, `num_bg_processes = 0`. -/
def initial {σ : Type} (w : σ) : Shell σ := ⟨[], 0, w, []⟩

/-- The number of background jobs launched: the `fork()` calls of the `bg`
branch that returned a process id to the parent. -/
def launched (t : List Event) : Int :=
  (t.filter fun ev => match ev with
    | .fork_bg r => decide (r > 0)
    | _ => false).length

/-- The number of termination lines printed. -/
def reported (t : List Event) : Int :=
  (t.filter fun ev => match ev with
    | .printf_terminated _ _ => true
    | _ => false).length

/-! ## A concrete system: children with a running time -/

/-- A child process of the shell: its id and the time it still runs; `0`
means that it has terminated and has not been waited for. -/
structure Child where
  pid : Int
  remaining : Nat
deriving DecidableEq, Repr

/-- The children of the shell, the id the next child gets, and the running
times of the children still to be created (`fork` fails when none is left). -/
structure Kernel where
  children : List Child
  next_pid : Int
  spawn : List Nat
deriving DecidableEq, Repr

/-- The call `waitpid(pid, NULL, WNOHANG)` for `pid > 0`: `-1` when the shell
has no such child, `0` when the child still runs, else the child is reaped and
its id returned.  No time passes.  The shell only passes ids returned by
`fork`; other arguments are answered `-1`. -/
def Kernel.waitpid (k : Kernel) (pid : Int) : Int × Kernel :=
  if pid ≤ 0 then (-1, k) else
  match k.children.find? (fun c => c.pid = pid) with
  | none => (-1, k)
  | some c =>
    if c.remaining = 0 then
      (pid, { k with children := k.children.eraseP (fun c => c.pid = pid) })
    else (0, k)

/-- The least remaining running time among children. -/
def Kernel.soonest : List Child → Nat
  | [] => 0
  | [c] => c.remaining
  | c :: cs => min c.remaining (Kernel.soonest cs)

/-- The call `wait(NULL)`: `-1` without children; otherwise it returns when
any child has terminated, the one with the least remaining time: time advances
by that much for every child, that child is reaped and its id returned. -/
def Kernel.wait (k : Kernel) : Int × Kernel :=
  let m := Kernel.soonest k.children
  match k.children.find? (fun c => c.remaining = m) with
  | none => (-1, k)
  | some c =>
    let others := k.children.eraseP (fun c => c.remaining = m)
    (c.pid, { k with children := others.map (fun c => ⟨c.pid, c.remaining - m⟩) })

/-- The call `fork()` in the parent: a new child with the next id, or `-1`. -/
def Kernel.fork (k : Kernel) : Int × Kernel :=
  match k.spawn with
  | [] => (-1, k)
  | d :: ds =>
    (k.next_pid, { children := k.children ++ [⟨k.next_pid, d⟩],
                   next_pid := k.next_pid + 1, spawn := ds })

/-- The concrete system as an `OS`. -/
def kernel : OS Kernel where
  waitpid := Kernel.waitpid
  wait := Kernel.wait
  fork := Kernel.fork
  realloc := fun k _ => (true, k)
  chdir := fun k _ => (0, k)
  getenv_HOME := fun _ => some "/home/u".toList
  whoami := fun _ => ("u".toList, "h".toList, "/".toList)

/-- No background activity: once a check of `p` has not reported termination,
no later check of `p` does, whatever checks are made in between. -/
def quiescent {σ : Type} (os : OS σ) : Prop :=
  ∀ (w : σ) (p q : Int), (os.waitpid w p).1 ≤ 0 → (os.waitpid (os.waitpid w q).2 p).1 ≤ 0

/-! ## Invariants of the command loop -/

/-- The registry is well formed and its counter is the number of jobs launched
minus the number of termination lines printed. -/
def inv {σ : Type} (s : Shell σ) : Prop :=
  wf s ∧ s.num_bg_processes = launched s.trace - reported s.trace

/-- The shell `s1` comes after `s`: it is well formed, its trace extends the
trace of `s` by some events, its counter changed by the jobs launched minus the
termination lines printed in these events, and when these events launch no job
and print no termination line the registry is the registry of `s`. -/
def follows {σ : Type} (s s1 : Shell σ) : Prop :=
  wf s1 ∧ ∃ evs, s1.trace = s.trace ++ evs ∧
    s1.num_bg_processes = s.num_bg_processes + launched evs - reported evs ∧
    (launched evs = 0 → reported evs = 0 → registry s1 = registry s)

/-! ## Concrete states used to instantiate the theorems -/

/-- A system with three children: `100` and `101` have terminated, `102` still
runs for `4` units; one more child can be created. -/
def ex_kernel : Kernel := ⟨[⟨100, 0⟩, ⟨101, 0⟩, ⟨102, 4⟩], 103, [9]⟩

/-- A shell tracking the three children of `ex_kernel`, in launch order. -/
def ex_shell : Shell Kernel :=
  ⟨[⟨100, "a".toList⟩, ⟨101, "b".toList⟩, ⟨102, "c".toList⟩], 3, ex_kernel, []⟩

/-- A system with one running child `100` (3 units left), where the next child
`101` will run for `10` units. -/
def fg_kernel : Kernel := ⟨[⟨100, 3⟩], 101, [10]⟩

/-- A shell tracking the background job `100` of `fg_kernel`. -/
def fg_shell : Shell Kernel := ⟨[⟨100, "sleep".toList⟩], 1, fg_kernel, []⟩

/-- A line of `100` one-letter words separated by single spaces (`199`
characters), followed by a newline. -/
def hundred_words : List Char :=
  List.intercalate [SP] (List.replicate 100 "a".toList) ++ [NL]

/-- Three input lines: two background launches and `bg` without a program. -/
def run_inputs : List Input :=
  [⟨[], some "bg sleep 5\n".toList⟩, ⟨[], some "bg true\n".toList⟩, ⟨[], some "bg\n".toList⟩]

/-- A system without children where the next three children run for `5`, `0`
and `2` units. -/
def run_kernel : Kernel := ⟨[], 100, [5, 0, 2]⟩

/-- The shell after `run_inputs` on `run_kernel`: job `101` has been reported
and removed (its copy beyond the counter is what the shift left in the block). -/
def run_final : Shell Kernel :=
  ⟨[⟨100, "sleep".toList⟩, ⟨101, "true".toList⟩], 1, ⟨[⟨100, 5⟩], 102, [2]⟩,
   [Event.printf_prompt "u".toList "h".toList "/".toList, Event.fork_bg 100,
    Event.realloc 1 true, Event.waitpid 100 0,
    Event.printf_prompt "u".toList "h".toList "/".toList, Event.fork_bg 101,
    Event.realloc 2 true, Event.waitpid 100 0, Event.waitpid 101 101,
    Event.printf_terminated 101 "true".toList,
    Event.printf_prompt "u".toList "h".toList "/".toList,
    Event.fprintf_stderr "bg: No command given\n", Event.waitpid 100 0]⟩

/-- The claim that an iteration runs the reaping step once after the dispatch:
whatever the dispatch did (`ok`, or the `break` of `exit`), the iteration ends
in the state that `bg_process_status` gives from the state after the dispatch. -/
def reaps_after_dispatch {σ : Type} (os : OS σ) (s : Shell σ) (inp : Input) : Prop :=
  ∃ args s1 s2, read_args inp = .ok args ∧
    (dispatch os (display_prompt os s) args = .ok s1 ∨
      dispatch os (display_prompt os s) args = .exit_loop s1) ∧
    bg_process_status os s1 = .ok s2 ∧
    (main_iteration os s inp = .ok s2 ∨ main_iteration os s inp = .exit_loop s2)

/-! ## Lemmas on the array primitives -/

theorem rd_eq_getElem? {α : Type} (a : List α) (i : Int) (h : 0 ≤ i) :
    rd a i = a[i.toNat]? := by
  simp [rd, h]

theorem shift_loop_spec (num : Int) :
    ∀ (fuel : Nat) (j : Int) (a : List background_process),
      0 ≤ j → num ≤ a.length → (num - 1 - j).toNat < fuel →
      ∃ a1, shift_loop num fuel j a = .ok a1 ∧ a1.length = a.length ∧
        ∀ k : Nat, a1[k]? = if j.toNat ≤ k ∧ (k : Int) + 1 < num then a[k + 1]? else a[k]? := by
  intro fuel
  induction fuel with
  | zero => intro j a _ _ h; omega
  | succ fuel ih =>
    intro j a hj hn hf
    unfold shift_loop
    by_cases hlt : j < num - 1
    · have h1 : (j + 1).toNat < a.length := by omega
      have h2 : j.toNat < a.length := by omega
      have hrd : rd a (j + 1) = some (a[(j + 1).toNat]) := by
        rw [rd_eq_getElem? _ _ (by omega)]; exact List.getElem?_eq_getElem h1
      have hwr : ∀ e, wr a j e = some (a.set j.toNat e) := by
        intro e; unfold wr; rw [if_pos]; constructor <;> omega
      simp only [hlt, if_true, hrd, hwr]
      obtain ⟨a1, he, hl, hk⟩ := ih (j + 1) (a.set j.toNat a[(j + 1).toNat]) (by omega)
        (by simpa using hn) (by omega)
      refine ⟨a1, he, by simpa using hl, ?_⟩
      intro k
      rw [hk k]
      have hj1 : (j + 1).toNat = j.toNat + 1 := by omega
      by_cases c1 : (j + 1).toNat ≤ k ∧ (k : Int) + 1 < num
      · have c2 : j.toNat ≤ k ∧ (k : Int) + 1 < num := ⟨by omega, c1.2⟩
        rw [if_pos c1, if_pos c2, List.getElem?_set]
        have : ¬ j.toNat = k + 1 := by omega
        simp [this]
      · rw [if_neg c1, List.getElem?_set]
        by_cases c3 : j.toNat = k
        · have c2 : j.toNat ≤ k ∧ (k : Int) + 1 < num := ⟨by omega, by omega⟩
          rw [if_pos c3, if_pos h2, if_pos c2, ← c3, ← hj1]
          exact (List.getElem?_eq_getElem h1).symm
        · have c2 : ¬ (j.toNat ≤ k ∧ (k : Int) + 1 < num) := by
            intro h; apply c1; exact ⟨by omega, h.2⟩
          rw [if_neg c3, if_neg c2]
    · simp only [hlt, if_false]
      refine ⟨a, rfl, rfl, ?_⟩
      intro k
      have : ¬ (j.toNat ≤ k ∧ (k : Int) + 1 < num) := by
        intro h; omega
      rw [if_neg this]


theorem shift_loop_registry (num : Int) (i : Int) (a : List background_process)
    (hi : 0 ≤ i) (hin : i < num) (hn : num ≤ a.length) :
    ∃ a1, shift_loop num (num - i).toNat i a = .ok a1 ∧ a1.length = a.length ∧
      a1.take (num - 1).toNat = (a.take num.toNat).eraseIdx i.toNat := by
  obtain ⟨a1, he, hl, hk⟩ := shift_loop_spec num (num - i).toNat i a hi hn (by omega)
  refine ⟨a1, he, hl, ?_⟩
  apply List.ext_getElem?
  intro k
  rw [List.getElem?_take, hk k, List.getElem?_eraseIdx, List.getElem?_take, List.getElem?_take]
  split_ifs <;> first | rfl | (exfalso; omega)

theorem registry_drop_cons {σ : Type} (s : Shell σ) (i : Int) (hi : 0 ≤ i)
    (hin : i < s.num_bg_processes) (hn : s.num_bg_processes ≤ s.bg_processes.length) :
    ∃ e, rd s.bg_processes i = some e ∧
      (registry s).drop i.toNat = e :: (registry s).drop (i + 1).toNat := by
  have h1 : i.toNat < s.bg_processes.length := by omega
  refine ⟨s.bg_processes[i.toNat], ?_, ?_⟩
  · rw [rd_eq_getElem? _ _ hi]; exact List.getElem?_eq_getElem h1
  · have h2 : i.toNat < (registry s).length := by
      simp [registry]; omega
    have h3 : (i + 1).toNat = i.toNat + 1 := by omega
    rw [h3, List.drop_eq_getElem_cons h2]
    simp [registry]

theorem bg_process_status_loop_spec {σ : Type} (os : OS σ) :
    ∀ (fuel : Nat) (i : Int) (s : Shell σ),
      0 ≤ i → i ≤ s.num_bg_processes → s.num_bg_processes ≤ s.bg_processes.length →
      (s.num_bg_processes - i).toNat < fuel →
      ∃ s1, bg_process_status_loop os fuel i s = .ok s1 ∧
        s1.bg_processes.length = s.bg_processes.length ∧
        registry s1 = (registry s).take i.toNat ++
          (remove_terminated os s.os ((registry s).drop i.toNat)).1 ∧
        s1.num_bg_processes =
          i + ((remove_terminated os s.os ((registry s).drop i.toNat)).1.length : Int) ∧
        s1.os = (remove_terminated os s.os ((registry s).drop i.toNat)).2.2 ∧
        s1.trace = s.trace ++ (remove_terminated os s.os ((registry s).drop i.toNat)).2.1 := by
  intro fuel
  induction fuel with
  | zero => intro i s _ _ _ h; omega
  | succ fuel ih =>
    intro i s hi hin hn hf
    unfold bg_process_status_loop
    by_cases hlt : i < s.num_bg_processes
    · obtain ⟨e, hrd, hdrop⟩ := registry_drop_cons s i hi hlt hn
      simp only [hlt, if_true, hrd, hdrop, remove_terminated]
      by_cases hr : (os.waitpid s.os e.pid).1 > 0
      · simp only [hr, if_true, Shell.log]
        obtain ⟨a1, hs, hl, ht⟩ := shift_loop_registry s.num_bg_processes i s.bg_processes hi hlt hn
        simp only [hs]
        have hi1 : i - 1 + 1 = i := by omega
        rw [hi1]
        obtain ⟨s1, he, h1, h2, h3, h4, h5⟩ := ih i
          (⟨a1, s.num_bg_processes - 1, (os.waitpid s.os e.pid).2,
            s.trace ++ [Event.waitpid e.pid (os.waitpid s.os e.pid).1] ++
              [Event.printf_terminated e.pid e.command]⟩ : Shell σ)
          hi (by simp; omega) (by simp; omega) (by simp; omega)
        have hreg : registry
            (⟨a1, s.num_bg_processes - 1, (os.waitpid s.os e.pid).2,
              s.trace ++ [Event.waitpid e.pid (os.waitpid s.os e.pid).1] ++
                [Event.printf_terminated e.pid e.command]⟩ : Shell σ) =
            (registry s).take i.toNat ++ (registry s).drop (i + 1).toNat := by
          have h3 : (i + 1).toNat = i.toNat + 1 := by omega
          simp only [registry, ht, h3]
          exact List.eraseIdx_eq_take_drop_succ _ _
        have hlen : ((registry s).take i.toNat).length = i.toNat := by
          simp [registry]; omega
        have hd : ((registry s).take i.toNat ++ (registry s).drop (i + 1).toNat).drop i.toNat
            = (registry s).drop (i + 1).toNat := by
          rw [List.drop_append_of_le_length (by omega), List.drop_of_length_le (by omega)]
          simp
        have htk : ((registry s).take i.toNat ++ (registry s).drop (i + 1).toNat).take i.toNat
            = (registry s).take i.toNat := by
          rw [List.take_append_of_le_length (by omega), List.take_of_length_le (by omega)]
        simp only [hreg, hd, htk] at h2 h3 h4 h5
        refine ⟨s1, he, by simpa using h1.trans hl, h2, h3, h4, ?_⟩
        simpa using h5
      · simp only [hr, if_false]
        obtain ⟨s1, he, h1, h2, h3, h4, h5⟩ := ih (i + 1)
          (⟨s.bg_processes, s.num_bg_processes, (os.waitpid s.os e.pid).2,
            s.trace ++ [Event.waitpid e.pid (os.waitpid s.os e.pid).1]⟩ : Shell σ)
          (by omega) (by simp; omega) (by simpa using hn) (by simp; omega)
        have hreg : registry (⟨s.bg_processes, s.num_bg_processes, (os.waitpid s.os e.pid).2,
            s.trace ++ [Event.waitpid e.pid (os.waitpid s.os e.pid).1]⟩ : Shell σ)
            = registry s := rfl
        rw [hreg] at h2 h3 h4 h5
        have h3' : (i + 1).toNat = i.toNat + 1 := by omega
        have htk : (registry s).take (i + 1).toNat = (registry s).take i.toNat ++ [e] := by
          have := List.take_append_drop i.toNat (registry s)
          rw [hdrop] at this
          conv_lhs => rw [← this]
          have hlen : ((registry s).take i.toNat).length = i.toNat := by
            simp [registry]; omega
          rw [h3', List.take_append_eq_append_take]
          simp [hlen]
        refine ⟨s1, he, by simpa using h1, ?_, ?_, h4, ?_⟩
        · rw [h2, htk]; simp
        · rw [h3]; simp; omega
        · rw [h5]; simp
    · have hi0 : i = s.num_bg_processes := by omega
      have hd : (registry s).drop i.toNat = [] := by
        apply List.drop_of_length_le; simp [registry]; omega
      have htk : (registry s).take i.toNat = registry s := by
        apply List.take_of_length_le; simp [registry]; omega
      simp only [hlt, if_false, hd, htk, remove_terminated]
      exact ⟨s, rfl, rfl, by simp, by simp; omega, rfl, by simp⟩


theorem bg_process_status_spec {σ : Type} (os : OS σ) (s : Shell σ) (h : wf s) :
    ∃ s1, bg_process_status os s = .ok s1 ∧ wf s1 ∧
      registry s1 = (remove_terminated os s.os (registry s)).1 ∧
      s1.num_bg_processes = ((remove_terminated os s.os (registry s)).1.length : Int) ∧
      s1.os = (remove_terminated os s.os (registry s)).2.2 ∧
      s1.trace = s.trace ++ (remove_terminated os s.os (registry s)).2.1 := by
  obtain ⟨s1, he, h1, h2, h3, h4, h5⟩ :=
    bg_process_status_loop_spec os (s.num_bg_processes.toNat + 1) 0 s (le_refl 0) h.1 h.2
      (by have := h.1; omega)
  simp only [Int.toNat_zero, List.take_zero, List.drop_zero, List.nil_append, zero_add]
    at h2 h3 h4 h5
  refine ⟨s1, he, ?_, h2, h3, h4, h5⟩
  have hlen : (registry s1).length ≤ s1.bg_processes.length := by
    simp [registry]
  constructor
  · rw [h3]; omega
  · rw [h3, ← h2]; exact_mod_cast hlen

theorem check_outcomes_length {σ : Type} (os : OS σ) :
    ∀ (es : List background_process) (w : σ), (check_outcomes os w es).length = es.length := by
  intro es
  induction es with
  | nil => intro w; rfl
  | cons e es ih => intro w; simp [check_outcomes, ih]

theorem remove_terminated_kept {σ : Type} (os : OS σ) :
    ∀ (es : List background_process) (w : σ),
      (remove_terminated os w es).1 =
        ((es.zip (check_outcomes os w es)).filter (fun p => decide (¬ p.2 > 0))).map Prod.fst := by
  intro es
  induction es with
  | nil => intro w; rfl
  | cons e es ih =>
    intro w
    simp only [remove_terminated, check_outcomes, List.zip_cons_cons, List.filter_cons]
    by_cases hr : (os.waitpid w e.pid).1 > 0
    · simp [hr, ih]
    · simp [hr, ih]

theorem remove_terminated_waitpid_calls {σ : Type} (os : OS σ) :
    ∀ (es : List background_process) (w : σ),
      waitpid_calls (remove_terminated os w es).2.1 =
        (es.zip (check_outcomes os w es)).map (fun p => (p.1.pid, p.2)) := by
  intro es
  induction es with
  | nil => intro w; rfl
  | cons e es ih =>
    intro w
    have := ih (os.waitpid w e.pid).2
    simp only [waitpid_calls] at this
    simp only [remove_terminated, check_outcomes, List.zip_cons_cons, List.map_cons, waitpid_calls]
    by_cases hr : (os.waitpid w e.pid).1 > 0
    · simp [hr, this]
    · simp [hr, this]

theorem remove_terminated_stdout {σ : Type} (os : OS σ) :
    ∀ (es : List background_process) (w : σ),
      stdout_of (remove_terminated os w es).2.1 =
        ((es.zip (check_outcomes os w es)).filter (fun p => decide (p.2 > 0))).map
          (fun p => toString p.1.pid ++ ": " ++ String.mk p.1.command ++ " has terminated.\n") := by
  intro es
  induction es with
  | nil => intro w; rfl
  | cons e es ih =>
    intro w
    have := ih (os.waitpid w e.pid).2
    simp only [stdout_of] at this
    simp only [remove_terminated, check_outcomes, List.zip_cons_cons, List.filter_cons, stdout_of]
    by_cases hr : (os.waitpid w e.pid).1 > 0
    · simp [hr, this, stdout_text]
    · simp [hr, this, stdout_text]

theorem remove_terminated_counts {σ : Type} (os : OS σ) :
    ∀ (es : List background_process) (w : σ),
      launched (remove_terminated os w es).2.1 = 0 ∧
      reported (remove_terminated os w es).2.1 +
        ((remove_terminated os w es).1.length : Int) = es.length := by
  intro es
  induction es with
  | nil => intro w; simp [remove_terminated, launched, reported]
  | cons e es ih =>
    intro w
    have := ih (os.waitpid w e.pid).2
    simp only [launched, reported] at this
    simp only [remove_terminated, launched, reported]
    by_cases hr : (os.waitpid w e.pid).1 > 0
    · simp [hr, List.filter_cons]
      constructor
      · simpa using this.1
      · have := this.2; simp at this; omega
    · simp [hr, List.filter_cons]
      constructor
      · simpa using this.1
      · have := this.2; simp at this; omega


theorem realloc_block_set (a : List background_process) (n : Nat) (v : background_process)
    (hn : n ≤ a.length) :
    ((realloc_block a (n + 1)).set n v).take (n + 1) = a.take n ++ [v] ∧
    ((realloc_block a (n + 1)).set n v).length = n + 1 := by
  have hlen : (realloc_block a (n + 1)).length = n + 1 := by
    simp [realloc_block]; omega
  refine ⟨?_, by simpa using hlen⟩
  apply List.ext_getElem?
  intro k
  rw [List.getElem?_take, List.getElem?_set, hlen]
  by_cases c1 : k < n
  · have c2 : ¬ n = k := by omega
    have c3 : k < n + 1 := by omega
    have c4 : k < (a.take n).length := by simp; omega
    have c5 : k < (a.take (n + 1)).length := by simp; omega
    rw [if_pos c3, if_neg c2, List.getElem?_append_left c4, realloc_block,
      List.getElem?_append_left c5, List.getElem?_take, List.getElem?_take, if_pos c1, if_pos c3]
  · by_cases c2 : n = k
    · subst c2
      have c4 : (a.take n).length = n := by simp; omega
      rw [if_pos (by omega), if_pos rfl, if_pos (by omega)]
      rw [List.getElem?_append_right (by omega), c4]
      simp
    · have c3 : ¬ k < n + 1 := by omega
      rw [if_neg c3]
      symm
      apply List.getElem?_eq_none
      simp; omega

theorem add_bg_process_ok {σ : Type} (os : OS σ) (s s1 : Shell σ) (pid : Int)
    (command : List Char) (h : wf s) (he : add_bg_process os s pid command = .ok s1) :
    registry s1 = registry s ++ [⟨pid, strncpy_label command⟩] ∧
    s1.num_bg_processes = s.num_bg_processes + 1 ∧ wf s1 ∧
    s1.os = (os.realloc s.os (s.num_bg_processes + 1)).2 ∧
    s1.trace = s.trace ++ [Event.realloc (s.num_bg_processes + 1) true] := by
  unfold add_bg_process at he
  obtain ⟨h0, hn⟩ := h
  have hnat : (s.num_bg_processes + 1).toNat = s.num_bg_processes.toNat + 1 := by omega
  have hle : s.num_bg_processes.toNat ≤ s.bg_processes.length := by omega
  obtain ⟨hset, hlen⟩ := realloc_block_set s.bg_processes s.num_bg_processes.toNat
    ⟨pid, strncpy_label command⟩ hle
  have hblk : (realloc_block s.bg_processes (s.num_bg_processes.toNat + 1)).length
      = s.num_bg_processes.toNat + 1 := by simpa using hlen
  by_cases hmax : s.num_bg_processes ≥ INT_MAX
  · simp [hmax] at he
  · by_cases hre : (os.realloc s.os (s.num_bg_processes + 1)).1 = true
    · have hwr : wr (realloc_block s.bg_processes (s.num_bg_processes.toNat + 1))
          (s.num_bg_processes + 1 - 1) ⟨pid, strncpy_label command⟩ =
          some ((realloc_block s.bg_processes (s.num_bg_processes.toNat + 1)).set
            s.num_bg_processes.toNat ⟨pid, strncpy_label command⟩) := by
        unfold wr
        rw [if_pos (by constructor <;> omega)]
        simp
      simp only [hmax, if_false, hre, if_true, hnat, hwr] at he
      injection he with he
      subst he
      refine ⟨?_, rfl, ?_, rfl, ?_⟩
      · simp only [registry, hnat]
        exact hset
      · constructor
        · show 0 ≤ s.num_bg_processes + 1
          omega
        · show s.num_bg_processes + 1 ≤ _
          simp only [hlen]; omega
      · simp [hre]
    · simp [hmax, hre] at he

theorem add_bg_process_returns {σ : Type} (os : OS σ) (s : Shell σ) (pid : Int)
    (command : List Char) (h : wf s) (hmax : s.num_bg_processes < INT_MAX)
    (hre : (os.realloc s.os (s.num_bg_processes + 1)).1 = true) :
    ∃ s1, add_bg_process os s pid command = .ok s1 := by
  obtain ⟨h0, hn⟩ := h
  have hnat : (s.num_bg_processes + 1).toNat = s.num_bg_processes.toNat + 1 := by omega
  have hle : s.num_bg_processes.toNat ≤ s.bg_processes.length := by omega
  obtain ⟨_, hlen⟩ := realloc_block_set s.bg_processes s.num_bg_processes.toNat
    ⟨pid, strncpy_label command⟩ hle
  have hblk : (realloc_block s.bg_processes (s.num_bg_processes.toNat + 1)).length
      = s.num_bg_processes.toNat + 1 := by simpa using hlen
  have hwr : wr (realloc_block s.bg_processes (s.num_bg_processes.toNat + 1))
      (s.num_bg_processes + 1 - 1) ⟨pid, strncpy_label command⟩ =
      some ((realloc_block s.bg_processes (s.num_bg_processes.toNat + 1)).set
        s.num_bg_processes.toNat ⟨pid, strncpy_label command⟩) := by
    unfold wr
    rw [if_pos (by constructor <;> omega)]
    simp
  have hmax1 : ¬ s.num_bg_processes ≥ INT_MAX := by omega
  unfold add_bg_process
  simp only [hmax1, if_false, hre, if_true, hnat, hwr]
  exact ⟨_, rfl⟩

theorem bglist_loop_spec {σ : Type} :
    ∀ (fuel : Nat) (i : Int) (s : Shell σ),
      0 ≤ i → i ≤ s.num_bg_processes → s.num_bg_processes ≤ s.bg_processes.length →
      (s.num_bg_processes - i).toNat < fuel →
      bglist_loop fuel i s = .ok (s.log (((registry s).drop i.toNat).map
        (fun e => Event.printf_entry e.pid e.command))) := by
  intro fuel
  induction fuel with
  | zero => intro i s _ _ _ h; omega
  | succ fuel ih =>
    intro i s hi hin hn hf
    unfold bglist_loop
    by_cases hlt : i < s.num_bg_processes
    · obtain ⟨e, hrd, hdrop⟩ := registry_drop_cons s i hi hlt hn
      simp only [hlt, if_true, hrd, hdrop]
      rw [ih (i + 1) _ (by omega) (by simp [Shell.log]; omega) (by simpa [Shell.log] using hn)
        (by simp [Shell.log]; omega)]
      simp [Shell.log, registry]
    · have hd : (registry s).drop i.toNat = [] := by
        apply List.drop_of_length_le; simp [registry]; omega
      simp [hlt, hd, Shell.log]

theorem bglist_branch_spec {σ : Type} (s : Shell σ) (h : wf s) :
    bglist_branch s = .ok (s.log ((registry s).map
        (fun e => Event.printf_entry e.pid e.command) ++
          [Event.printf_total s.num_bg_processes])) := by
  unfold bglist_branch
  rw [bglist_loop_spec _ 0 s (le_refl 0) h.1 h.2 (by have := h.1; omega)]
  simp [Shell.log]


theorem strtok_rest_length (s tok rest : List Char) (h : strtok s = some (tok, rest)) :
    rest.length < s.length := by
  unfold strtok at h
  have hsuf : (s.dropWhile is_delim).length ≤ s.length :=
    (List.dropWhile_sublist is_delim).length_le
  cases hd : s.dropWhile is_delim with
  | nil => rw [hd] at h; simp at h
  | cons c cs =>
    rw [hd] at h hsuf
    simp only [Option.some.injEq, Prod.mk.injEq] at h
    have h2 : ((c :: cs).dropWhile (fun x => !is_delim x)).length ≤ (c :: cs).length :=
      (List.dropWhile_sublist _).length_le
    rw [← h.2, List.length_drop]
    simp only [List.length_cons] at h2 hsuf
    omega

theorem args_loop_fuel :
    ∀ (fuel : Nat) (token : Option (List Char × List Char)) (args : List (List Char)),
      (match token with
        | none => 0
        | some (_, rest) => rest.length + 1) < fuel →
      args_loop fuel token args ≠ .out_of_fuel := by
  intro fuel
  induction fuel with
  | zero => intro token args h; omega
  | succ fuel ih =>
    intro token args h
    unfold args_loop
    cases token with
    | none => simp only; split_ifs <;> simp
    | some p =>
      obtain ⟨tok, rest⟩ := p
      simp only at h ⊢
      split_ifs
      · apply ih
        cases hs : strtok rest with
        | none => simp; omega
        | some q =>
          obtain ⟨tok1, rest1⟩ := q
          have := strtok_rest_length rest tok1 rest1 hs
          simp only
          omega
      · simp

theorem read_args_fuel (inp : Input) : read_args inp ≠ .out_of_fuel := by
  unfold read_args
  cases cstr (fgets inp.stale inp.line) with
  | none => simp
  | some str =>
    simp only [tokenize]
    apply args_loop_fuel
    cases hs : strtok (str.takeWhile (fun c => c ≠ NL)) with
    | none => simp
    | some q =>
      obtain ⟨tok1, rest1⟩ := q
      have := strtok_rest_length _ tok1 rest1 hs
      simp only
      omega

theorem launched_append (a b : List Event) : launched (a ++ b) = launched a + launched b := by
  simp [launched, List.filter_append]

theorem reported_append (a b : List Event) : reported (a ++ b) = reported a + reported b := by
  simp [reported, List.filter_append]

theorem launched_nonneg (t : List Event) : 0 ≤ launched t := by
  simp [launched]

theorem reported_nonneg (t : List Event) : 0 ≤ reported t := by
  simp [reported]

theorem follows_refl {σ : Type} (s : Shell σ) (h : wf s) : follows s s :=
  ⟨h, [], by simp, by simp [launched, reported], fun _ _ => rfl⟩

theorem follows_trans {σ : Type} (s s1 s2 : Shell σ) (h1 : follows s s1)
    (h2 : follows s1 s2) : follows s s2 := by
  obtain ⟨_, e1, ht1, hn1, hr1⟩ := h1
  obtain ⟨hw, e2, ht2, hn2, hr2⟩ := h2
  refine ⟨hw, e1 ++ e2, by rw [ht2, ht1, List.append_assoc], ?_, ?_⟩
  · rw [hn2, hn1, launched_append, reported_append]; omega
  · intro hl hr
    rw [launched_append] at hl
    rw [reported_append] at hr
    have a1 := launched_nonneg e1
    have a2 := launched_nonneg e2
    have b1 := reported_nonneg e1
    have b2 := reported_nonneg e2
    rw [hr2 (by omega) (by omega), hr1 (by omega) (by omega)]

theorem follows_inv {σ : Type} (s s1 : Shell σ) (h : inv s) (hf : follows s s1) : inv s1 := by
  obtain ⟨hw, evs, ht, hn, _⟩ := hf
  refine ⟨hw, ?_⟩
  rw [hn, ht, launched_append, reported_append, h.2]; omega

theorem follows_log {σ : Type} (s : Shell σ) (es : List Event) (h : wf s)
    (hl : launched es = 0) (hr : reported es = 0) : follows s (s.log es) :=
  ⟨h, es, rfl, by rw [hl, hr]; simp [Shell.log], fun _ _ => rfl⟩

theorem follows_chdir_or_perror {σ : Type} (os : OS σ) (s : Shell σ) (path : List Char)
    (h : wf s) : follows s (chdir_or_perror os s path) := by
  simp only [chdir_or_perror]
  split_ifs
  · exact ⟨h, [Event.chdir path (os.chdir s.os path).1, Event.perror "cd"],
      by simp [Shell.log], by simp [Shell.log, launched, reported], fun _ _ => rfl⟩
  · exact ⟨h, [Event.chdir path (os.chdir s.os path).1], rfl, by simp [launched, reported],
      fun _ _ => rfl⟩

theorem follows_cd_branch {σ : Type} (os : OS σ) (s : Shell σ) (args : List (List Char))
    (h : wf s) : follows s (cd_branch os s args) := by
  have hno : follows s (no_home s) :=
    follows_log s _ h (by simp [launched]) (by simp [reported])
  unfold cd_branch
  split
  · split_ifs
    · split
      · exact follows_chdir_or_perror os s _ h
      · exact hno
    · split
      · exact follows_chdir_or_perror os s _ h
      · exact hno
    · exact follows_chdir_or_perror os s _ h
  · split
    · exact follows_chdir_or_perror os s _ h
    · exact hno

theorem follows_bg_branch {σ : Type} (os : OS σ) (s s1 : Shell σ) (args : List (List Char))
    (h : wf s) (he : bg_branch os s args = .ok s1) : follows s s1 := by
  unfold bg_branch at he
  split at he
  · simp only at he
    split_ifs at he with h0 hneg
    · injection he with he
      subst he
      refine ⟨h, [Event.fork_bg (os.fork s.os).1, Event.perror "fork"],
        by simp [Shell.log], ?_, fun _ _ => rfl⟩
      have : ¬ (os.fork s.os).1 > 0 := by omega
      simp [Shell.log, launched, reported, this]
    · obtain ⟨_, h2, h3, _, h5⟩ := add_bg_process_ok os _ s1 _ _
        (show wf (⟨s.bg_processes, s.num_bg_processes, (os.fork s.os).2,
          s.trace ++ [Event.fork_bg (os.fork s.os).1]⟩ : Shell σ) from h) he
      have hpos : (os.fork s.os).1 > 0 := by omega
      refine ⟨h3, [Event.fork_bg (os.fork s.os).1,
        Event.realloc (s.num_bg_processes + 1) true], by simp [h5], ?_, ?_⟩
      · rw [h2]
        simp [launched, reported, hpos]
      · intro hl
        exfalso
        simp [launched, hpos] at hl
  · injection he with he
    subst he
    exact follows_log s _ h (by simp [launched]) (by simp [reported])

theorem follows_fg_branch {σ : Type} (os : OS σ) (s s1 : Shell σ)
    (h : wf s) (he : fg_branch os s = .ok s1) : follows s s1 := by
  unfold fg_branch at he
  simp only at he
  split_ifs at he with h0 hneg
  · injection he with he
    subst he
    exact ⟨h, [Event.fork_fg (os.fork s.os).1, Event.perror "fork"],
      by simp [Shell.log], by simp [Shell.log, launched, reported], fun _ _ => rfl⟩
  · injection he with he
    subst he
    exact ⟨h, [Event.fork_fg (os.fork s.os).1, Event.wait (os.wait (os.fork s.os).2).1],
      by simp, by simp [launched, reported], fun _ _ => rfl⟩

theorem follows_dispatch {σ : Type} (os : OS σ) (s s1 : Shell σ) (args : List (List Char))
    (h : wf s) (he : dispatch os s args = .ok s1) : follows s s1 := by
  unfold dispatch at he
  split at he
  · injection he with he; subst he; exact follows_refl s h
  · split_ifs at he
    · injection he with he; subst he; exact follows_cd_branch os s _ h
    · exact follows_bg_branch os s s1 _ h he
    · rw [bglist_branch_spec s h] at he
      injection he with he
      subst he
      apply follows_log s _ h
      · simp [launched, List.filter_append, List.filter_map]
      · simp [reported, List.filter_append, List.filter_map]
    · exact follows_fg_branch os s s1 h he

theorem reported_cons_waitpid (p r : Int) (l : List Event) :
    reported (Event.waitpid p r :: l) = reported l := by
  simp [reported, List.filter_cons]

theorem reported_cons_terminated (p : Int) (c : List Char) (l : List Event) :
    reported (Event.printf_terminated p c :: l) = reported l + 1 := by
  simp [reported, List.filter_cons]

theorem remove_terminated_unreported {σ : Type} (os : OS σ) :
    ∀ (es : List background_process) (w : σ),
      reported (remove_terminated os w es).2.1 = 0 → (remove_terminated os w es).1 = es := by
  intro es
  induction es with
  | nil => intro w _; rfl
  | cons e es ih =>
    intro w h
    simp only [remove_terminated] at h ⊢
    split_ifs at h ⊢
    · exfalso
      have h1 := reported_nonneg (remove_terminated os (os.waitpid w e.pid).2 es).2.1
      rw [reported_cons_waitpid, reported_cons_terminated] at h
      omega
    · rw [reported_cons_waitpid] at h
      rw [ih _ h]

theorem follows_bg_process_status {σ : Type} (os : OS σ) (s : Shell σ) (h : wf s) :
    ∃ s1, bg_process_status os s = .ok s1 ∧ follows s s1 := by
  obtain ⟨s1, he, hw1, h2, h3, _, h5⟩ := bg_process_status_spec os s h
  refine ⟨s1, he, hw1, _, h5, ?_, ?_⟩
  · obtain ⟨hl, hr⟩ := remove_terminated_counts os (registry s) s.os
    have hlen : ((registry s).length : Int) = s.num_bg_processes := by
      simp [registry]; have := h.1; have := h.2; omega
    rw [h3, hl]
    omega
  · intro _ hr
    rw [h2, remove_terminated_unreported os _ _ hr]

theorem follows_display_prompt {σ : Type} (os : OS σ) (s : Shell σ) (h : wf s) :
    follows s (display_prompt os s) :=
  follows_log s _ h (by simp [launched]) (by simp [reported])

theorem follows_main_iteration {σ : Type} (os : OS σ) (s s1 : Shell σ) (inp : Input)
    (h : wf s) (he : main_iteration os s inp = .ok s1) : follows s s1 := by
  unfold main_iteration at he
  split at he
  · split at he
    · rename_i s0 hd
      have h0 := follows_display_prompt os s h
      have h1 := follows_dispatch os _ s0 _ h0.1 hd
      obtain ⟨s2, he2, h2⟩ := follows_bg_process_status os s0 h1.1
      rw [he2] at he
      injection he with he
      subst he
      exact follows_trans _ _ _ h0 (follows_trans _ _ _ h1 h2)
    · rename_i o hne
      exact absurd he (hne s1)
  · simp at he
  · simp at he

theorem add_bg_process_ne_exit_loop {σ : Type} (os : OS σ) (s s1 : Shell σ) (pid : Int)
    (command : List Char) : add_bg_process os s pid command ≠ .exit_loop s1 := by
  unfold add_bg_process
  simp only
  split_ifs
  · simp
  · split <;> simp
  · simp

theorem dispatch_exit_loop {σ : Type} (os : OS σ) (s s1 : Shell σ) (args : List (List Char))
    (h : wf s) (he : dispatch os s args = .exit_loop s1) :
    s1 = s ∧ args.head? = some "exit".toList := by
  unfold dispatch at he
  split at he
  · simp at he
  · split_ifs at he with h1
    · injection he with he
      exact ⟨he.symm, by simp [h1]⟩
    · unfold bg_branch at he
      split at he
      · simp only at he
        split_ifs at he
        exact absurd he (add_bg_process_ne_exit_loop os _ s1 _ _)
      · simp at he
    · rw [bglist_branch_spec s h] at he
      simp at he
    · unfold fg_branch at he
      simp only at he
      split_ifs at he

theorem main_iteration_exit_loop {σ : Type} (os : OS σ) (s s1 : Shell σ) (inp : Input)
    (h : wf s) (he : main_iteration os s inp = .exit_loop s1) :
    s1 = display_prompt os s ∧
      ∃ args, read_args inp = .ok args ∧ args.head? = some "exit".toList := by
  unfold main_iteration at he
  split at he
  · rename_i args hargs
    split at he
    · rename_i s0 hd
      have hw0 : wf s0 := (follows_dispatch os _ s0 _ (show wf (display_prompt os s) from h) hd).1
      obtain ⟨s2, he2, _⟩ := bg_process_status_spec os s0 hw0
      rw [he2] at he
      simp at he
    · obtain ⟨h1, h2⟩ := dispatch_exit_loop os _ s1 _ (show wf (display_prompt os s) from h) he
      exact ⟨h1, args, hargs, h2⟩
  · simp at he
  · simp at he

theorem follows_main_loop {σ : Type} (os : OS σ) :
    ∀ (inputs : List Input) (s s1 : Shell σ), wf s →
      main_loop os inputs s = .ok s1 ∨ main_loop os inputs s = .exit_loop s1 →
      follows s s1 := by
  intro inputs
  induction inputs with
  | nil =>
    intro s s1 h he
    simp [main_loop] at he
    subst he; exact follows_refl _ h
  | cons inp rest ih =>
    intro s s1 h he
    unfold main_loop at he
    cases hm : main_iteration os s inp with
    | ok s2 =>
      rw [hm] at he
      have h1 := follows_main_iteration os s s2 inp h hm
      exact follows_trans _ _ _ h1 (ih s2 s1 h1.1 he)
    | exit_loop s2 =>
      rw [hm] at he
      simp at he
      subst he
      rw [(main_iteration_exit_loop os s s2 inp h hm).1]
      exact follows_display_prompt os s h
    | in_child s2 => rw [hm] at he; simp at he
    | exit_failure s2 => rw [hm] at he; simp at he
    | undefined => rw [hm] at he; simp at he
    | out_of_fuel => rw [hm] at he; simp at he


theorem find_eraseP_ne (l : List Child) (p q : Int) (h : q ≠ p) :
    (l.eraseP (fun c => decide (c.pid = q))).find? (fun c => decide (c.pid = p)) =
      l.find? (fun c => decide (c.pid = p)) := by
  induction l with
  | nil => rfl
  | cons c cs ih =>
    by_cases hq : c.pid = q
    · have hp : ¬ c.pid = p := by intro hp; exact h (hq.symm.trans hp)
      rw [List.eraseP_cons, List.find?_cons]
      simp [hq, h]
    · by_cases hp : c.pid = p
      · rw [List.eraseP_cons]
        simp only [hq, decide_False, cond_false]
        rw [List.find?_cons, List.find?_cons]
        simp only [hp, decide_True]
      · rw [List.eraseP_cons]
        simp only [hq, decide_False, cond_false]
        rw [List.find?_cons, List.find?_cons]
        simp only [hp, decide_False, ih]

theorem Kernel.waitpid_snd (k : Kernel) (q : Int) :
    (k.waitpid q).2 = k ∨
      (0 < q ∧ (k.waitpid q).1 = q ∧
        (k.waitpid q).2 = { k with children := k.children.eraseP (fun c => decide (c.pid = q)) }) := by
  unfold Kernel.waitpid
  by_cases hq : q ≤ 0
  · simp [hq]
  · simp only [hq, if_false]
    cases k.children.find? (fun c => decide (c.pid = q)) with
    | none => simp
    | some c =>
      by_cases hr : c.remaining = 0
      · right; simp [hr]; omega
      · simp [hr]

theorem kernel_quiescent : quiescent kernel := by
  intro k p q h
  show ((Kernel.waitpid (Kernel.waitpid k q).2 p).1 ≤ 0)
  have h : (Kernel.waitpid k p).1 ≤ 0 := h
  rcases Kernel.waitpid_snd k q with h1 | ⟨hq, hv, h1⟩
  · rw [h1]; exact h
  · by_cases hpq : q = p
    · subst hpq; omega
    · rw [h1]
      unfold Kernel.waitpid at h ⊢
      by_cases hp : p ≤ 0
      · simp [hp]
      · simp only [hp, if_false] at h ⊢
        rw [find_eraseP_ne _ p q hpq]
        cases hf : k.children.find? (fun c => decide (c.pid = p)) with
        | none => simp
        | some c =>
          rw [hf] at h
          by_cases hr : c.remaining = 0
          · simp [hr] at h; omega
          · simp [hr]

theorem quiescent_remove_terminated {σ : Type} (os : OS σ) (hq : quiescent os) (p : Int) :
    ∀ (es : List background_process) (w : σ), (os.waitpid w p).1 ≤ 0 →
      (os.waitpid (remove_terminated os w es).2.2 p).1 ≤ 0 := by
  intro es
  induction es with
  | nil => intro w h; exact h
  | cons e es ih =>
    intro w h
    have h1 := ih (os.waitpid w e.pid).2 (hq w p e.pid h)
    simp only [remove_terminated]
    split_ifs <;> exact h1

theorem quiescent_kept {σ : Type} (os : OS σ) (hq : quiescent os) :
    ∀ (es : List background_process) (w : σ),
      ∀ e ∈ (remove_terminated os w es).1,
        (os.waitpid (remove_terminated os w es).2.2 e.pid).1 ≤ 0 := by
  intro es
  induction es with
  | nil => intro w e he; simp [remove_terminated] at he
  | cons e0 es ih =>
    intro w e he
    simp only [remove_terminated] at he ⊢
    by_cases hr : (os.waitpid w e0.pid).1 > 0
    · simp only [hr, if_true] at he ⊢
      exact ih _ e he
    · simp only [hr, if_false, List.mem_cons] at he ⊢
      rcases he with he | he
      · subst he
        exact quiescent_remove_terminated os hq e.pid es _ (hq w e.pid e.pid (by omega))
      · exact ih _ e he

theorem remove_terminated_silent {σ : Type} (os : OS σ) (hq : quiescent os) :
    ∀ (es : List background_process) (w : σ),
      (∀ e ∈ es, (os.waitpid w e.pid).1 ≤ 0) →
      (remove_terminated os w es).1 = es ∧ stdout_of (remove_terminated os w es).2.1 = [] := by
  intro es
  induction es with
  | nil => intro w _; exact ⟨rfl, rfl⟩
  | cons e es ih =>
    intro w h
    have h0 : ¬ (os.waitpid w e.pid).1 > 0 := by
      have := h e (List.mem_cons_self _ _); omega
    obtain ⟨h1, h2⟩ := ih (os.waitpid w e.pid).2
      (fun e1 he1 => hq w e1.pid e.pid (h e1 (List.mem_cons_of_mem _ he1)))
    simp only [remove_terminated, h0, if_false, h1]
    refine ⟨trivial, ?_⟩
    simp only [stdout_of] at h2
    simp [stdout_of, stdout_text, h2]


theorem remove_terminated_events {σ : Type} (os : OS σ) :
    ∀ (es : List background_process) (w : σ),
      ∀ ev ∈ (remove_terminated os w es).2.1,
        (∃ p r, ev = Event.waitpid p r) ∨ (∃ p c, ev = Event.printf_terminated p c) := by
  intro es
  induction es with
  | nil => intro w ev h; simp [remove_terminated] at h
  | cons e es ih =>
    intro w ev h
    simp only [remove_terminated] at h
    split_ifs at h
    · simp only [List.mem_cons] at h
      rcases h with h | h | h
      · exact Or.inl ⟨_, _, h⟩
      · exact Or.inr ⟨_, _, h⟩
      · exact ih _ ev h
    · simp only [List.mem_cons] at h
      rcases h with h | h
      · exact Or.inl ⟨_, _, h⟩
      · exact ih _ ev h

theorem drop_append_length {α : Type} (a b : List α) : (a ++ b).drop a.length = b := by
  simp

theorem take_append_length {α : Type} (a b : List α) : (a ++ b).take a.length = a := by
  simp

/-- C1: one run of `bg_process_status` on a well-formed registry returns; every
entry present at the start is checked by `waitpid` exactly once, in registry
order (also an entry that moved into a slot just vacated); afterwards the
registry holds exactly the entries whose check did not give a result `> 0`, in
their original order, and `num_bg_processes` is their number. -/
theorem bg_process_status_keeps_unterminated {σ : Type} (os : OS σ) (s : Shell σ)
    (h : wf s) :
    ∃ s1, bg_process_status os s = .ok s1 ∧
      registry s1 = (((registry s).zip (check_outcomes os s.os (registry s))).filter
        (fun p => decide (¬ p.2 > 0))).map Prod.fst ∧
      s1.num_bg_processes = ((registry s1).length : Int) ∧
      (check_outcomes os s.os (registry s)).length = (registry s).length ∧
      s1.trace.take s.trace.length = s.trace ∧
      waitpid_calls (s1.trace.drop s.trace.length) =
        ((registry s).zip (check_outcomes os s.os (registry s))).map
          (fun p => (p.1.pid, p.2)) := by
  obtain ⟨s1, he, _, h2, h3, _, h5⟩ := bg_process_status_spec os s h
  refine ⟨s1, he, ?_, ?_, check_outcomes_length os _ _, ?_, ?_⟩
  · rw [h2, remove_terminated_kept]
  · rw [h3, h2]
  · rw [h5, take_append_length]
  · rw [h5, drop_append_length, remove_terminated_waitpid_calls]

/-- Witness of C1 on `ex_shell`: the two adjacent terminated entries `100` and
`101` are both removed in the same pass and `102` is kept. -/
theorem bg_process_status_keeps_unterminated_witness :
    wf ex_shell ∧ ∃ s1, bg_process_status kernel ex_shell = .ok s1 ∧
      registry s1 = [⟨102, "c".toList⟩] ∧ s1.num_bg_processes = 1 ∧
      waitpid_calls s1.trace = [(100, 100), (101, 101), (102, 0)] := by
  refine ⟨by decide, ?_⟩
  obtain ⟨s1, h1, h2, h3, _, _, h6⟩ :=
    bg_process_status_keeps_unterminated kernel ex_shell (by decide)
  refine ⟨s1, h1, ?_, ?_, ?_⟩
  · rw [h2]; decide
  · rw [h3, h2]; decide
  · have : s1.trace.drop ex_shell.trace.length = s1.trace := rfl
    rw [← this, h6]; decide

/-- C2: one run of `bg_process_status` on a well-formed registry writes to
standard output exactly the lines `<pid>: <command> has terminated.`, one for
each entry whose check gave a result `> 0`, in registry order, each with the
pid and label of the entry checked; the run does nothing else than the
`waitpid` calls and these `printf` calls. -/
theorem bg_process_status_prints_terminated {σ : Type} (os : OS σ) (s : Shell σ)
    (h : wf s) :
    ∃ s1, bg_process_status os s = .ok s1 ∧
      s1.trace.take s.trace.length = s.trace ∧
      stdout_of (s1.trace.drop s.trace.length) =
        (((registry s).zip (check_outcomes os s.os (registry s))).filter
          (fun p => decide (p.2 > 0))).map
          (fun p => toString p.1.pid ++ ": " ++ String.mk p.1.command ++ " has terminated.\n") ∧
      ∀ ev ∈ s1.trace.drop s.trace.length,
        (∃ p r, ev = Event.waitpid p r) ∨ (∃ p c, ev = Event.printf_terminated p c) := by
  obtain ⟨s1, he, _, _, _, _, h5⟩ := bg_process_status_spec os s h
  refine ⟨s1, he, ?_, ?_, ?_⟩
  · rw [h5, take_append_length]
  · rw [h5, drop_append_length, remove_terminated_stdout]
  · rw [h5, drop_append_length]
    exact remove_terminated_events os _ _

/-- Witness of C2 on `ex_shell`: the lines of `100` and `101`, in that order. -/
theorem bg_process_status_prints_terminated_witness :
    wf ex_shell ∧ ∃ s1, bg_process_status kernel ex_shell = .ok s1 ∧
      stdout_of s1.trace = ["100: a has terminated.\n", "101: b has terminated.\n"] := by
  refine ⟨by decide, ?_⟩
  obtain ⟨s1, h1, _, h3, _⟩ :=
    bg_process_status_prints_terminated kernel ex_shell (by decide)
  refine ⟨s1, h1, ?_⟩
  have : s1.trace.drop ex_shell.trace.length = s1.trace := rfl
  rw [← this, h3]; decide


/-- C3: on a well-formed registry of `n` entries (with `n` below `INT_MAX`,
the range of the counter), when the reallocation succeeds,
`add_bg_process(pid, command)` returns with a registry of `n + 1` entries: the
previous entries unchanged and in the same order, then one entry holding `pid`
and the first `1023` characters of `command` (all of `command` when it is not
longer), which fits the 1024-byte field with its terminator.  Hence a second
insertion puts its job after the first one. -/
theorem add_bg_process_appends {σ : Type} (os : OS σ) (s : Shell σ) (pid : Int)
    (command : List Char) (h : wf s) (hmax : s.num_bg_processes < INT_MAX)
    (hre : (os.realloc s.os (s.num_bg_processes + 1)).1 = true) :
    ∃ s1, add_bg_process os s pid command = .ok s1 ∧ wf s1 ∧
      registry s1 = registry s ++ [⟨pid, command.take 1023⟩] ∧
      (registry s1).length = (registry s).length + 1 ∧
      s1.num_bg_processes = s.num_bg_processes + 1 ∧
      (command.take 1023).length + 1 ≤ COMMAND_SIZE ∧
      (command.length ≤ 1023 → command.take 1023 = command) ∧
      ∀ (pid2 : Int) (command2 : List Char) (s2 : Shell σ),
        add_bg_process os s1 pid2 command2 = .ok s2 →
        registry s2 = registry s ++ [⟨pid, command.take 1023⟩, ⟨pid2, command2.take 1023⟩] := by
  obtain ⟨s1, he⟩ := add_bg_process_returns os s pid command h hmax hre
  obtain ⟨h1, h2, h3, _, _⟩ := add_bg_process_ok os s s1 pid command h he
  have hl : strncpy_label command = command.take 1023 := rfl
  rw [hl] at h1
  refine ⟨s1, he, h3, h1, by rw [h1]; simp, h2, ?_, ?_, ?_⟩
  · simp [COMMAND_SIZE]
  · intro hc; exact List.take_of_length_le hc
  · intro pid2 command2 s2 he2
    obtain ⟨h4, _⟩ := add_bg_process_ok os s1 s2 pid2 command2 h3 he2
    rw [h4, h1]
    simp [strncpy_label, COMMAND_SIZE]

/-- Witness of C3: inserting into the registry of `ex_shell`. -/
theorem add_bg_process_appends_witness :
    wf ex_shell ∧ ex_shell.num_bg_processes < INT_MAX ∧
      (kernel.realloc ex_shell.os (ex_shell.num_bg_processes + 1)).1 = true ∧
      ∃ s1, add_bg_process kernel ex_shell 103 "sleep".toList = .ok s1 ∧
        registry s1 = [⟨100, "a".toList⟩, ⟨101, "b".toList⟩, ⟨102, "c".toList⟩,
          ⟨103, "sleep".toList⟩] ∧ s1.num_bg_processes = 4 := by
  refine ⟨by decide, by decide, rfl, ?_⟩
  obtain ⟨s1, h1, _, h3, _, h5, _⟩ :=
    add_bg_process_appends kernel ex_shell 103 "sleep".toList (by decide) (by decide) rfl
  refine ⟨s1, h1, ?_, ?_⟩
  · rw [h3]; decide
  · rw [h5]; decide

/-- C4: on a well-formed registry the `bglist` branch returns, having written
to standard output one line `<pid>: <command>` per registry entry, in registry
order, then the line `Total background jobs: <n>` with `n = num_bg_processes`,
which is the number of entry lines; it does nothing else, and leaves the block,
the counter and the world as they were. -/
theorem bglist_prints_registry {σ : Type} (os : OS σ) (s : Shell σ)
    (rest : List (List Char)) (h : wf s) :
    dispatch os s ("bglist".toList :: rest) = bglist_branch s ∧
    ∃ s1, bglist_branch s = .ok s1 ∧
      s1.trace.take s.trace.length = s.trace ∧
      stdout_of (s1.trace.drop s.trace.length) =
        (registry s).map (fun e => toString e.pid ++ ": " ++ String.mk e.command ++ "\n") ++
          ["Total background jobs: " ++ toString s.num_bg_processes ++ "\n"] ∧
      s.num_bg_processes = ((registry s).length : Int) ∧
      (s1.trace.drop s.trace.length).length = (registry s).length + 1 ∧
      s1.bg_processes = s.bg_processes ∧ s1.num_bg_processes = s.num_bg_processes ∧
      s1.os = s.os := by
  refine ⟨?_, _, bglist_branch_spec s h, ?_, ?_, ?_, ?_, rfl, rfl, rfl⟩
  · have h1 : ¬ "bglist".toList = "exit".toList := by decide
    have h2 : ¬ "bglist".toList = "cd".toList := by decide
    have h3 : ¬ "bglist".toList = "bg".toList := by decide
    simp only [dispatch, h1, h2, h3, if_false, if_true]
  · simp [Shell.log]
  · simp only [Shell.log, stdout_of, drop_append_length, List.filterMap_append,
      List.filterMap_map]
    congr 1
    generalize registry s = l
    induction l with
    | nil => rfl
    | cons e l ih => simp [List.filterMap_cons, stdout_text, ih]
  · simp [registry]; have := h.1; have := h.2; omega
  · simp [Shell.log]

/-- Witness of C4 on `ex_shell`. -/
theorem bglist_prints_registry_witness :
    wf ex_shell ∧ ∃ s1, bglist_branch ex_shell = .ok s1 ∧
      stdout_of s1.trace = ["100: a\n", "101: b\n", "102: c\n", "Total background jobs: 3\n"] ∧
      registry s1 = registry ex_shell := by
  refine ⟨by decide, ?_⟩
  obtain ⟨_, s1, h1, _, h3, _, _, h6, h7, _⟩ :=
    bglist_prints_registry kernel ex_shell [] (by decide)
  refine ⟨s1, h1, ?_, ?_⟩
  · have : s1.trace.drop ex_shell.trace.length = s1.trace := rfl
    rw [← this, h3]; decide
  · simp [registry, h6, h7]

/-- C5: when the system is quiescent (a check that has not reported termination
does not report it later, whatever checks are made in between), a second run of
`bg_process_status` right after a first one returns, writes nothing to standard
output, and leaves the registry and `num_bg_processes` as the first run left
them. -/
theorem bg_process_status_idempotent {σ : Type} (os : OS σ) (hq : quiescent os)
    (s : Shell σ) (h : wf s) :
    ∃ s1 s2, bg_process_status os s = .ok s1 ∧ bg_process_status os s1 = .ok s2 ∧
      s2.trace.take s1.trace.length = s1.trace ∧
      stdout_of (s2.trace.drop s1.trace.length) = [] ∧
      registry s2 = registry s1 ∧ s2.num_bg_processes = s1.num_bg_processes := by
  obtain ⟨s1, he1, hw1, h2, h3, h4, _⟩ := bg_process_status_spec os s h
  obtain ⟨s2, he2, _, k2, k3, _, k5⟩ := bg_process_status_spec os s1 hw1
  have hsil : ∀ e ∈ registry s1, (os.waitpid s1.os e.pid).1 ≤ 0 := by
    intro e he
    rw [h2] at he
    rw [h4]
    exact quiescent_kept os hq _ _ e he
  obtain ⟨q1, q2⟩ := remove_terminated_silent os hq (registry s1) s1.os hsil
  refine ⟨s1, s2, he1, he2, ?_, ?_, ?_, ?_⟩
  · rw [k5, take_append_length]
  · rw [k5, drop_append_length, q2]
  · rw [k2, q1]
  · rw [k3, q1, h3, h2]

/-- Witness of C5 on the concrete system, from `ex_shell`. -/
theorem bg_process_status_idempotent_witness :
    quiescent kernel ∧ wf ex_shell ∧
      ∃ s1 s2, bg_process_status kernel ex_shell = .ok s1 ∧
        bg_process_status kernel s1 = .ok s2 ∧
        stdout_of (s2.trace.drop s1.trace.length) = [] ∧
        registry s2 = registry s1 ∧ s2.num_bg_processes = s1.num_bg_processes := by
  refine ⟨kernel_quiescent, by decide, ?_⟩
  obtain ⟨s1, s2, h1, h2, _, h4, h5, h6⟩ :=
    bg_process_status_idempotent kernel kernel_quiescent ex_shell (by decide)
  exact ⟨s1, s2, h1, h2, h4, h5, h6⟩


theorem initial_inv {σ : Type} (w : σ) : inv (initial w) := by
  refine ⟨⟨le_refl _, le_refl _⟩, ?_⟩
  simp [initial, launched, reported]

theorem main_iteration_bg_alone {σ : Type} (os : OS σ) (s : Shell σ) (inp : Input)
    (h : wf s) (hr : read_args inp = .ok ["bg".toList]) :
    ∃ s1, main_iteration os s inp = .ok s1 ∧
      s1.trace = s.trace ++ (Event.printf_prompt (os.whoami s.os).1 (os.whoami s.os).2.1
          (os.whoami s.os).2.2 :: Event.fprintf_stderr "bg: No command given\n" ::
          (remove_terminated os s.os (registry s)).2.1) ∧
      registry s1 = (remove_terminated os s.os (registry s)).1 ∧
      s1.num_bg_processes = ((remove_terminated os s.os (registry s)).1.length : Int) := by
  have hd : dispatch os (display_prompt os s) ["bg".toList] =
      .ok ((display_prompt os s).log [Event.fprintf_stderr "bg: No command given\n"]) := by
    have h1 : ¬ "bg".toList = "exit".toList := by decide
    have h2 : ¬ "bg".toList = "cd".toList := by decide
    simp only [dispatch, h1, h2, if_false, if_true, bg_branch]
  obtain ⟨s1, he, _, h2, h3, _, h5⟩ := bg_process_status_spec os
    ((display_prompt os s).log [Event.fprintf_stderr "bg: No command given\n"]) h
  refine ⟨s1, ?_, ?_, h2, h3⟩
  · simp only [main_iteration, hr, hd, he]
  · rw [h5]
    simp [display_prompt, Shell.log, registry]


theorem follows_quiet {σ : Type} (s s1 : Shell σ) (hf : follows s s1)
    (hl : launched s1.trace = launched s.trace) (hr : reported s1.trace = reported s.trace) :
    registry s1 = registry s ∧ s1.num_bg_processes = s.num_bg_processes := by
  obtain ⟨_, evs, ht, hn, hreg⟩ := hf
  rw [ht, launched_append] at hl
  rw [ht, reported_append] at hr
  have h1 : launched evs = 0 := by omega
  have h2 : reported evs = 0 := by omega
  exact ⟨hreg h1 h2, by rw [hn, h1, h2]; omega⟩

theorem dispatch_returns_builtin {σ : Type} (os : OS σ) (s : Shell σ)
    (args : List (List Char)) (h : wf s)
    (hb : args = [] ∨ args.head? = some "cd".toList ∨ args.head? = some "bglist".toList ∨
      args = ["bg".toList]) :
    ∃ s1, dispatch os s args = .ok s1 := by
  have h1 : ¬ "cd".toList = "exit".toList := by decide
  have h2 : ¬ "bglist".toList = "exit".toList := by decide
  have h3 : ¬ "bglist".toList = "cd".toList := by decide
  have h4 : ¬ "bglist".toList = "bg".toList := by decide
  have h5 : ¬ "bg".toList = "exit".toList := by decide
  have h6 : ¬ "bg".toList = "cd".toList := by decide
  rcases hb with hb | hb | hb | hb
  · subst hb; exact ⟨_, rfl⟩
  · cases args with
    | nil => simp at hb
    | cons a0 rest =>
      have ha : a0 = "cd".toList := by simpa using hb
      subst ha
      simp only [dispatch, h1, if_false, if_true]
      exact ⟨_, rfl⟩
  · cases args with
    | nil => simp at hb
    | cons a0 rest =>
      have ha : a0 = "bglist".toList := by simpa using hb
      subst ha
      simp only [dispatch, h2, h3, h4, if_false, if_true]
      exact ⟨_, bglist_branch_spec s h⟩
  · subst hb
    simp only [dispatch, h5, h6, if_false, if_true, bg_branch]
    exact ⟨_, rfl⟩

theorem dispatch_returns_bg {σ : Type} (os : OS σ) (s : Shell σ)
    (args : List (List Char)) (h : wf s) (hb : args.head? = some "bg".toList)
    (hf : (os.fork s.os).1 ≠ 0)
    (hg : 0 < (os.fork s.os).1 → s.num_bg_processes < INT_MAX ∧
      (os.realloc (os.fork s.os).2 (s.num_bg_processes + 1)).1 = true) :
    ∃ s1, dispatch os s args = .ok s1 := by
  have h5 : ¬ "bg".toList = "exit".toList := by decide
  have h6 : ¬ "bg".toList = "cd".toList := by decide
  cases args with
  | nil => simp at hb
  | cons a0 rest =>
    have ha : a0 = "bg".toList := by simpa using hb
    subst ha
    simp only [dispatch, h5, h6, if_false, if_true]
    unfold bg_branch
    split
    · simp only [hf, if_false]
      split_ifs with hneg
      · exact ⟨_, rfl⟩
      · obtain ⟨hmax, hre⟩ := hg (by omega)
        exact add_bg_process_returns os _ _ _ h hmax hre
    · exact ⟨_, rfl⟩

theorem dispatch_returns_fg {σ : Type} (os : OS σ) (s : Shell σ)
    (args : List (List Char)) (hne : args ≠ [])
    (h2 : args.head? ≠ some "cd".toList) (h3 : args.head? ≠ some "bg".toList)
    (h4 : args.head? ≠ some "bglist".toList) (hx : args.head? ≠ some "exit".toList)
    (hf : (os.fork s.os).1 ≠ 0) :
    ∃ s1, dispatch os s args = .ok s1 := by
  cases args with
  | nil => exact absurd rfl hne
  | cons a0 rest =>
    have k1 : ¬ a0 = "exit".toList := by intro hc; apply hx; simp [hc]
    have k2 : ¬ a0 = "cd".toList := by intro hc; apply h2; simp [hc]
    have k3 : ¬ a0 = "bg".toList := by intro hc; apply h3; simp [hc]
    have k4 : ¬ a0 = "bglist".toList := by intro hc; apply h4; simp [hc]
    simp only [dispatch, k1, k2, k3, k4, if_false]
    unfold fg_branch
    simp only [hf, if_false]
    split_ifs <;> exact ⟨_, rfl⟩

theorem add_bg_process_fuel {σ : Type} (os : OS σ) (s : Shell σ) (pid : Int)
    (command : List Char) : add_bg_process os s pid command ≠ .out_of_fuel := by
  unfold add_bg_process
  simp only
  split_ifs
  · simp
  · split <;> simp
  · simp

theorem dispatch_fuel {σ : Type} (os : OS σ) (s : Shell σ) (args : List (List Char))
    (h : wf s) : dispatch os s args ≠ .out_of_fuel := by
  unfold dispatch
  split
  · simp
  · split_ifs
    · simp
    · simp
    · unfold bg_branch
      split
      · simp only
        split_ifs
        · simp
        · simp
        · exact add_bg_process_fuel os _ _ _
      · simp
    · rw [bglist_branch_spec s h]; simp
    · unfold fg_branch
      simp only
      split_ifs <;> simp

theorem main_iteration_fuel {σ : Type} (os : OS σ) (s : Shell σ) (inp : Input)
    (h : wf s) : main_iteration os s inp ≠ .out_of_fuel := by
  have hw0 : wf (display_prompt os s) := h
  unfold main_iteration
  split
  · split
    · rename_i s0 hd
      obtain ⟨s2, he, _⟩ := bg_process_status_spec os s0 (follows_dispatch os _ s0 _ hw0 hd).1
      rw [he]; simp
    · exact dispatch_fuel os _ _ hw0
  · rename_i hr
    exact absurd hr (read_args_fuel inp)
  · simp

theorem main_loop_fuel {σ : Type} (os : OS σ) :
    ∀ (inputs : List Input) (s : Shell σ), wf s → main_loop os inputs s ≠ .out_of_fuel := by
  intro inputs
  induction inputs with
  | nil => intro s _; simp [main_loop]
  | cons inp rest ih =>
    intro s h
    unfold main_loop
    cases hm : main_iteration os s inp with
    | ok s2 => exact ih s2 (follows_main_iteration os s s2 inp h hm).1
    | out_of_fuel => exact absurd hm (main_iteration_fuel os s inp h)
    | exit_loop s2 => simp
    | in_child s2 => simp
    | exit_failure s2 => simp
    | undefined => simp

/-- C6: from the empty registry, after any finite sequence of iterations of the
command loop (the loop still running, or just left by `exit`),
`num_bg_processes`, which is the total that `bglist` prints, equals the number
of background jobs launched by `bg` minus the number of termination lines
printed so far.  An iteration on `bg` without a program prints the usage error
and launches nothing; and every iteration, whatever its input line, that
launches no job and prints no termination line leaves the registry and its
total unchanged. -/
theorem bglist_total_counts_outstanding {σ : Type} (os : OS σ) (w : σ)
    (inputs : List Input) (s : Shell σ)
    (h : main_loop os inputs (initial w) = .ok s ∨
      main_loop os inputs (initial w) = .exit_loop s) :
    s.num_bg_processes = launched s.trace - reported s.trace ∧
    (∃ s1, bglist_branch s = .ok s1 ∧
      s1.trace.getLast? = some (Event.printf_total (launched s.trace - reported s.trace))) ∧
    (∀ inp, read_args inp = .ok ["bg".toList] →
      ∃ s1, main_iteration os s inp = .ok s1 ∧
        Event.fprintf_stderr "bg: No command given\n" ∈ s1.trace.drop s.trace.length ∧
        launched s1.trace = launched s.trace ∧
        (reported s1.trace = reported s.trace →
          registry s1 = registry s ∧ s1.num_bg_processes = s.num_bg_processes)) ∧
    ∀ (inp : Input) (s1 : Shell σ),
      main_iteration os s inp = .ok s1 ∨ main_iteration os s inp = .exit_loop s1 →
      launched s1.trace = launched s.trace → reported s1.trace = reported s.trace →
      registry s1 = registry s ∧ s1.num_bg_processes = s.num_bg_processes := by
  have hi : inv s :=
    follows_inv _ _ (initial_inv w) (follows_main_loop os inputs _ s (initial_inv w).1 h)
  have hall : ∀ (inp : Input) (s1 : Shell σ),
      main_iteration os s inp = .ok s1 ∨ main_iteration os s inp = .exit_loop s1 →
      launched s1.trace = launched s.trace → reported s1.trace = reported s.trace →
      registry s1 = registry s ∧ s1.num_bg_processes = s.num_bg_processes := by
    intro inp s1 hm hl hr
    rcases hm with hm | hm
    · exact follows_quiet s s1 (follows_main_iteration os s s1 inp hi.1 hm) hl hr
    · rw [(main_iteration_exit_loop os s s1 inp hi.1 hm).1]
      exact ⟨rfl, rfl⟩
  refine ⟨hi.2, ⟨_, bglist_branch_spec s hi.1, ?_⟩, ?_, hall⟩
  · simp [Shell.log, hi.2]
  · intro inp hr
    obtain ⟨s1, he, ht, _, _⟩ := main_iteration_bg_alone os s inp hi.1 hr
    obtain ⟨hl, _⟩ := remove_terminated_counts os (registry s) s.os
    have hlaunch : launched s1.trace = launched s.trace := by
      rw [ht, launched_append]
      rw [show ∀ (a b : Event) (l : List Event), a :: b :: l = [a, b] ++ l from fun _ _ _ => rfl,
        launched_append, hl]
      simp [launched]
    refine ⟨s1, he, ?_, hlaunch, ?_⟩
    · rw [ht, drop_append_length]; simp
    · intro hrep
      exact hall inp s1 (Or.inl he) hlaunch hrep

/-- Witness of C6: after `run_inputs` two jobs were launched and one termination
line was printed, and the counter is `1`; a further `cd` iteration, which
launches and reports nothing, leaves the registry as it is. -/
theorem bglist_total_counts_outstanding_witness :
    main_loop kernel run_inputs (initial run_kernel) = .ok run_final ∧
      launched run_final.trace = 2 ∧ reported run_final.trace = 1 ∧
      run_final.num_bg_processes = launched run_final.trace - reported run_final.trace ∧
      ∃ s1, main_iteration kernel run_final ⟨[], some "cd /tmp\n".toList⟩ = .ok s1 ∧
        registry s1 = [⟨100, "sleep".toList⟩] ∧ s1.num_bg_processes = 1 := by
  have h : main_loop kernel run_inputs (initial run_kernel) = .ok run_final := by decide
  have hm : main_iteration kernel run_final ⟨[], some "cd /tmp\n".toList⟩ =
      .ok (⟨run_final.bg_processes, 1, run_final.os,
        run_final.trace ++ [Event.printf_prompt "u".toList "h".toList "/".toList,
          Event.chdir "/tmp".toList 0, Event.waitpid 100 0]⟩ : Shell Kernel) := by decide
  obtain ⟨h1, _, _, h4⟩ :=
    bglist_total_counts_outstanding kernel run_kernel run_inputs run_final (Or.inl h)
  obtain ⟨k1, k2⟩ := h4 _ _ (Or.inl hm) (by decide) (by decide)
  exact ⟨h, by decide, by decide, h1, _, hm, by rw [k1]; decide, by rw [k2]; decide⟩

/-- C7, as the claim states it, fails: on the line `exit` with a registry
holding terminated jobs, the iteration leaves the loop right after the prompt,
no `waitpid` call is made and the registry keeps its three entries, so the
reaping step is not run after the dispatch. -/
theorem exit_skips_reaping :
    main_iteration kernel ex_shell ⟨[], some "exit\n".toList⟩ =
      .exit_loop ⟨ex_shell.bg_processes, 3, ex_kernel,
        [Event.printf_prompt "u".toList "h".toList "/".toList]⟩ ∧
    ¬ reaps_after_dispatch kernel ex_shell ⟨[], some "exit\n".toList⟩ := by
  refine ⟨by decide, ?_⟩
  rintro ⟨args, s1, s2, hr, hd, hb, hm⟩
  have hargs : read_args ⟨[], some "exit\n".toList⟩ = .ok ["exit".toList] := by decide
  rw [hargs] at hr
  injection hr with hr
  subst hr
  have hdv : dispatch kernel (display_prompt kernel ex_shell) ["exit".toList] =
      .exit_loop (display_prompt kernel ex_shell) := by decide
  rw [hdv] at hd
  have hs1 : s1 = display_prompt kernel ex_shell := by
    rcases hd with hd | hd
    · exact absurd hd (by simp)
    · injection hd with hd; exact hd.symm
  subst hs1
  have hnum : s2.num_bg_processes = 1 := by
    have := congrArg (fun o => match o with
      | Outcome.ok s => s.num_bg_processes
      | _ => 0) hb
    simp only at this
    rw [← this]; decide
  have hit : main_iteration kernel ex_shell ⟨[], some "exit\n".toList⟩ =
      .exit_loop (display_prompt kernel ex_shell) := by decide
  rw [hit] at hm
  rcases hm with hm | hm
  · exact absurd hm (by simp)
  · injection hm with hm
    rw [← hm] at hnum
    exact absurd hnum (by decide)

/-- C7, amended: for an input line split into `args` on a well-formed registry,
when `args[0]` is `exit` the iteration leaves the loop right after the prompt
and `bg_process_status` is not run.  Otherwise the dispatch never leaves the
loop.  It reaches its end always for the empty line, `cd`, `bglist` and `bg`
without a program; for a foreground command when `fork` did not return `0`
(this process is not the child); for `bg <program>` when `fork` did not return
`0` and, if it returned a process id, the registry could grow.  Whenever the
dispatch reaches its end, the iteration is exactly one run of
`bg_process_status` on the state after the dispatch, which checks every entry
of the registry once, in order. -/
theorem main_iteration_reaps_unless_exit {σ : Type} (os : OS σ) (s : Shell σ)
    (inp : Input) (args : List (List Char)) (h : wf s) (hr : read_args inp = .ok args) :
    (args.head? = some "exit".toList →
      main_iteration os s inp = .exit_loop (display_prompt os s)) ∧
    (args.head? ≠ some "exit".toList →
      (∀ s1, dispatch os (display_prompt os s) args ≠ .exit_loop s1) ∧
      (args = [] ∨ args.head? = some "cd".toList ∨ args.head? = some "bglist".toList ∨
          args = ["bg".toList] →
        ∃ s1, dispatch os (display_prompt os s) args = .ok s1) ∧
      (args.head? = some "bg".toList → (os.fork s.os).1 ≠ 0 →
        (0 < (os.fork s.os).1 → s.num_bg_processes < INT_MAX ∧
          (os.realloc (os.fork s.os).2 (s.num_bg_processes + 1)).1 = true) →
        ∃ s1, dispatch os (display_prompt os s) args = .ok s1) ∧
      (args ≠ [] → args.head? ≠ some "cd".toList → args.head? ≠ some "bg".toList →
        args.head? ≠ some "bglist".toList → (os.fork s.os).1 ≠ 0 →
        ∃ s1, dispatch os (display_prompt os s) args = .ok s1) ∧
      (∀ s1, dispatch os (display_prompt os s) args = .ok s1 →
        ∃ s2, main_iteration os s inp = .ok s2 ∧ bg_process_status os s1 = .ok s2 ∧
          s2.trace.take s1.trace.length = s1.trace ∧
          waitpid_calls (s2.trace.drop s1.trace.length) =
            ((registry s1).zip (check_outcomes os s1.os (registry s1))).map
              (fun p => (p.1.pid, p.2)))) := by
  have hw0 : wf (display_prompt os s) := h
  refine ⟨?_, ?_⟩
  · intro hx
    cases args with
    | nil => simp at hx
    | cons a0 rest =>
      have ha : a0 = "exit".toList := by simpa using hx
      simp only [main_iteration, hr, dispatch, ha, if_true]
  · intro hx
    refine ⟨?_, ?_, ?_, ?_, ?_⟩
    · intro s1 hd
      exact hx (dispatch_exit_loop os _ s1 args hw0 hd).2
    · intro hb
      exact dispatch_returns_builtin os (display_prompt os s) args hw0 hb
    · intro hb hf hg
      exact dispatch_returns_bg os (display_prompt os s) args hw0 hb hf hg
    · intro hne h2 h3 h4 hf
      exact dispatch_returns_fg os (display_prompt os s) args hne h2 h3 h4 hx hf
    · intro s1 hd
      have hw1 : wf s1 := (follows_dispatch os _ s1 args hw0 hd).1
      obtain ⟨s2, he, _, _, _, _, h5⟩ := bg_process_status_spec os s1 hw1
      refine ⟨s2, ?_, he, ?_, ?_⟩
      · simp only [main_iteration, hr, hd, he]
      · rw [h5, take_append_length]
      · rw [h5, drop_append_length, remove_terminated_waitpid_calls]

/-- Witness of the amended C7 on the line `bglist`: after the listing, the
three entries of `ex_shell` are checked once each. -/
theorem main_iteration_reaps_unless_exit_witness :
    wf ex_shell ∧ read_args ⟨[], some "bglist\n".toList⟩ = .ok ["bglist".toList] ∧
      ∃ s1 s2, dispatch kernel (display_prompt kernel ex_shell) ["bglist".toList] = .ok s1 ∧
        main_iteration kernel ex_shell ⟨[], some "bglist\n".toList⟩ = .ok s2 ∧
        bg_process_status kernel s1 = .ok s2 ∧
        waitpid_calls (s2.trace.drop s1.trace.length) = [(100, 100), (101, 101), (102, 0)] := by
  have hw : wf ex_shell := by decide
  have hr : read_args ⟨[], some "bglist\n".toList⟩ = .ok ["bglist".toList] := by decide
  refine ⟨hw, hr, ?_⟩
  obtain ⟨_, h2⟩ := main_iteration_reaps_unless_exit kernel ex_shell
    ⟨[], some "bglist\n".toList⟩ ["bglist".toList] hw hr
  obtain ⟨_, h3, _, _, h4⟩ := h2 (by decide)
  obtain ⟨s1, hd⟩ := h3 (Or.inr (Or.inr (Or.inl rfl)))
  obtain ⟨s2, k1, k2, _, k4⟩ := h4 s1 hd
  refine ⟨s1, s2, hd, k1, k2, ?_⟩
  rw [k4]
  have hs1 : Outcome.ok s1 = Outcome.ok (⟨ex_shell.bg_processes, 3, ex_kernel,
      [Event.printf_prompt "u".toList "h".toList "/".toList,
       Event.printf_entry 100 "a".toList, Event.printf_entry 101 "b".toList,
       Event.printf_entry 102 "c".toList, Event.printf_total 3]⟩ : Shell Kernel) := by
    rw [← hd]; decide
  injection hs1 with hs1
  subst hs1
  decide

set_option maxRecDepth 100000

/-- C8 fails on the code: at end of input (`fgets` returns `NULL`) with `bglist`
left in the array `input`, the iteration splits the stale array, runs the
`bglist` branch and stays in the loop, whereas the line `exit` leaves the loop;
and when the array holds no NUL (never initialised), reading it is undefined. -/
theorem eof_dispatches_stale_input :
    main_iteration kernel (initial fg_kernel) ⟨"bglist".toList ++ [NUL], none⟩ =
      .ok ⟨[], 0, fg_kernel,
        [Event.printf_prompt "u".toList "h".toList "/".toList, Event.printf_total 0]⟩ ∧
    main_iteration kernel (initial fg_kernel) ⟨"bglist".toList ++ [NUL], some "exit\n".toList⟩ =
      .exit_loop ⟨[], 0, fg_kernel, [Event.printf_prompt "u".toList "h".toList "/".toList]⟩ ∧
    main_iteration kernel (initial fg_kernel) ⟨List.replicate INPUT_SIZE SP, none⟩ =
      .undefined := by
  refine ⟨?_, ?_, ?_⟩ <;> decide

/-- C9 fails on the code: with background job `100` outstanding (3 units left)
and the foreground child `101` needing 10 units, `wait(NULL)` returns `100`;
the iteration goes on to the reaping step and ends while `101` still has 7
units to run, and job `100`, already reaped by `wait`, stays in the registry
unreported (`waitpid` answers `-1`). -/
theorem fg_wait_returns_on_background_job :
    main_iteration kernel fg_shell ⟨[], some "sleep 10\n".toList⟩ =
      .ok ⟨[⟨100, "sleep".toList⟩], 1, ⟨[⟨101, 7⟩], 102, []⟩,
        [Event.printf_prompt "u".toList "h".toList "/".toList, Event.fork_fg 101,
         Event.wait 100, Event.waitpid 100 (-1)]⟩ := by
  decide

/-- C10 fails on the code: a line of 100 words (200 characters with its
newline, within the 1023 that `fgets` stores) makes the write `args[100] = NULL`
fall outside `args`; with 99 words all writes are inside. -/
theorem hundred_words_overflow_args :
    hundred_words.length = 200 ∧ hundred_words.length ≤ INPUT_SIZE - 1 ∧
    read_args ⟨[], some hundred_words⟩ = .undefined ∧
    read_args ⟨[], some (List.intercalate [SP] (List.replicate 99 "a".toList) ++ [NL])⟩ =
      .ok (List.replicate 99 "a".toList) := by
  refine ⟨by decide, by decide, ?_, ?_⟩ <;> decide

end SSI
